import Mathlib

/-!
Verification of the Python-SQLiteDB repository.

This file shallowly embeds the two layers of the library:

* `src/sqlitedb/sqlitedb.py` — the `SQLiteDB` facade and its background
  worker thread (`thread_db_connection`), which owns the only native
  connection and processes a queue of commands (`DBCommandSQL`,
  `DBCommandCommit`, `DBCommandQuit`) strictly in order.
* `src/sqlitedb/indexedb.py` — `IndexedDBManager` (namespace cache over
  one `SQLiteDB`) and `IndexedDB` (one key-value namespace per table).

The code only ever issues a fixed, finite family of SQL statement shapes,
so the SQL layer is embedded as a deep datatype `Query` of exactly those
statements together with an interpreter `runQuery` that models the
behaviour of the external SQLite engine on them (tables, rows, the
`jsonized` column, error cases such as missing tables or columns).
Machine-level details of SQLite (paging, types beyond TEXT/INTEGER for
these columns) do not matter for any claim.

The external serialization libraries (`json`, `pickle` + `base64`) are
modelled by concrete executable codecs with the same contract: an
injective encoding of the library's data model into text and a decoder
that inverts it.  No claim inspects the wire bytes of the encodings, only
round-trip behaviour, which the model codecs share with the originals.
-/

/-! ## Characters and SQL identifier quoting

`IndexedDB.__init__` builds the table identifier as
`"`db_%s`" % db_name.replace('`', '``')`: the namespace name has every
backtick doubled and the result is wrapped in backticks.  The SQL engine
parses such a quoted identifier back by reading up to the closing
backtick, turning each doubled backtick into a literal one.  -/

/-- The backtick character, used to quote SQL identifiers. -/
def btick : Char := Char.ofNat 96

/-- Model of Python `db_name.replace('`', '``')`: double every backtick. -/
def escapeTicks : List Char → List Char
  | [] => []
  | c :: rest =>
    if c = btick then c :: c :: escapeTicks rest else c :: escapeTicks rest

mutual

/-- Model of the SQL engine scanning a backtick-quoted identifier after the
opening backtick: a doubled backtick is a literal backtick, a single
backtick closes the identifier and must end the token.  Returns `none`
when the identifier is unterminated or followed by trailing characters. -/
def scanIdent : List Char → Option (List Char)
  | [] => none
  | c :: rest =>
    if c = btick then scanAfterTick rest
    else (scanIdent rest).map (c :: ·)

/-- Continuation of `scanIdent` after a backtick: end of input closes the
identifier, a second backtick is a literal one, anything else means the
identifier closed with trailing characters (malformed for our use). -/
def scanAfterTick : List Char → Option (List Char)
  | [] => some []
  | c2 :: rest2 =>
    if c2 = btick then (scanIdent rest2).map (btick :: ·) else none

end

/-- Model of the SQL engine resolving the quoted identifier string the code
interpolates into its statements to the actual (unquoted) table name. -/
def resolveIdent (s : String) : Option String :=
  match s.data with
  | c :: rest => if c = btick then (scanIdent rest).map String.mk else none
  | [] => none

/-- The quoted table identifier built by `IndexedDB.__init__`
(`"`db_%s`" % db_name.replace('`', '``')`). -/
def quotedTable (name : String) : String :=
  String.mk (btick :: 'd' :: 'b' :: '_' :: (escapeTicks name.data ++ [btick]))

/-- The physical (unquoted) table name `db_<name>` as recorded by the
engine in `sqlite_master`. -/
def physTable (name : String) : String :=
  String.mk ('d' :: 'b' :: '_' :: name.data)

theorem scanIdent_escape (cs : List Char) :
    scanIdent (escapeTicks cs ++ [btick]) = some cs := by
  induction cs with
  | nil => simp [escapeTicks, scanIdent, scanAfterTick]
  | cons c rest ih =>
    by_cases hc : c = btick
    · subst hc
      simp [escapeTicks, scanIdent, scanAfterTick, ih]
    · simp [escapeTicks, scanIdent, scanAfterTick, hc, ih]

/-- Resolving the quoted identifier recovers the physical table name: the
backtick doubling is undone by the engine's identifier parser. -/
theorem resolveIdent_quotedTable (name : String) :
    resolveIdent (quotedTable name) = some (physTable name) := by
  have hd : Char.ofNat 100 = 'd' := by decide
  simp only [resolveIdent, quotedTable, physTable]
  have h1 : ('d' : Char) ≠ btick := by decide
  have h2 : ('b' : Char) ≠ btick := by decide
  have h3 : ('_' : Char) ≠ btick := by decide
  simp [scanIdent, h1, h2, h3, scanIdent_escape]

/-! ## The database state and the query interpreter

The engine state is the set of namespace tables.  Each table created by
`IndexedDB.__create_table` has columns `key` (TEXT NOT NULL UNIQUE) and
`value` (TEXT); `IndexedDB.__support_jsonization` may later add the
column `jsonized` (INTEGER NOT NULL DEFAULT 0).  A row therefore always
carries a `jsonized` slot in the model; it is observable only when the
column exists (`hasJsonized = true`). -/

/-- One row of a namespace table. -/
structure DBRow where
  key : String
  value : String
  jsonized : Int
deriving DecidableEq, Repr

/-- One namespace table: whether the `jsonized` column has been added, and
the rows in insertion order. -/
structure DBTable where
  hasJsonized : Bool
  rows : List DBRow
deriving DecidableEq, Repr

/-- The engine state: tables in creation order, keyed by physical name. -/
structure DBState where
  tables : List (String × DBTable)
deriving DecidableEq, Repr

/-- The empty database (a fresh file). -/
def emptyDB : DBState := ⟨[]⟩

def lookupTable (db : DBState) (t : String) : Option DBTable :=
  (db.tables.find? (fun p => p.1 = t)).map (·.2)

def setTable (db : DBState) (t : String) (tbl : DBTable) : DBState :=
  ⟨db.tables.map (fun p => if p.1 = t then (t, tbl) else p)⟩

/-- A cell of a result row, as handed back by the engine. -/
inductive Val where
  | vs (s : String)
  | vi (n : Int)
  | vnull
deriving DecidableEq, Repr

/-- Python `r[i][j]` reads on the result rows expect a string cell. -/
def Val.asStr : Val → String
  | .vs s => s
  | _ => ""

/-- Python reads of an integer cell (the `jsonized` tag). -/
def Val.asInt : Val → Int
  | .vi n => n
  | _ => 0

/-- A result set: a list of row tuples (`DBResult` in `sqlitedb.py`). -/
abbrev Rows := List (List Val)

/-- The SQL statements the repository issues, as a deep datatype.  Each
constructor corresponds to one statement shape interpolated with the
quoted table identifier (`tbl` below is that quoted string, resolved by
the interpreter). -/
inductive Query where
  /-- The statement issued by `IndexedDB.__create_table` (CREATE TABLE IF
  NOT EXISTS with columns key, value). -/
  | createTable (tbl : String)
  /-- SELECT value [, jsonized] FROM tbl WHERE key=? — issued by
  `__getitem__` (with `withJson` following the jsonization probe) and by
  `key_exists` (always `withJson = false`). -/
  | selectValue (tbl : String) (key : String) (withJson : Bool)
  /-- SELECT key FROM tbl — issued by `IndexedDB.keys`. -/
  | selectKeys (tbl : String)
  /-- INSERT INTO tbl (key, value[, jsonized]) VALUES … — `__setitem__`. -/
  | insertRow (tbl : String) (key : String) (value : String) (tag : Option Int)
  /-- UPDATE tbl SET value=? [, jsonized=?] WHERE key=? — `__setitem__`. -/
  | updateRow (tbl : String) (key : String) (value : String) (tag : Option Int)
  /-- DELETE FROM tbl WHERE key=? — `IndexedDB.__delitem__`. -/
  | deleteKey (tbl : String) (key : String)
  /-- DROP TABLE tbl — `IndexedDB.drop_db`. -/
  | dropTable (tbl : String)
  /-- ALTER TABLE tbl ADD COLUMN jsonized INTEGER NOT NULL DEFAULT 0 —
  `IndexedDB.__support_jsonization`. -/
  | alterAddJsonized (tbl : String)
  /-- PRAGMA table_info(tbl) — `IndexedDB.__test_supports_jsonization`. -/
  | tableInfo (tbl : String)
  /-- SELECT tbl_name FROM sqlite_master WHERE type='table' AND tbl_name
  LIKE 'db_%' — `IndexedDBManager.keys`. -/
  | listTables
deriving DecidableEq, Repr

/-- Errors surfaced to the caller: engine errors re-raised by the facade,
plus the Python-level exceptions of the key-value layer. -/
inductive Err where
  | noSuchTable
  | noSuchColumn
  | duplicateColumn
  | uniqueViolation
  | malformedIdent
  | keyNotFound
  | decodeFailure
deriving DecidableEq, Repr

/-- The LIKE pattern `'db_%'` of `IndexedDBManager.keys`: `_` matches any
single character and `%` any suffix, case-insensitively on the letters. -/
def likeDbPat : List Char → Bool
  | c1 :: c2 :: _ :: _ => (c1 = 'd' || c1 = 'D') && (c2 = 'b' || c2 = 'B')
  | _ => false

/-- Python `table[0][3:]` on a table name (strip the `db_` prefix);
Python slicing is modelled on the character list. -/
def strDrop (s : String) (n : Nat) : String := String.mk (s.data.drop n)

/-- The `table_info` pragma rows: `(cid, name, type, notnull, dflt, pk)`;
`__test_supports_jsonization` destructures six fields and uses index 1. -/
def tableInfoRows (tbl : DBTable) : Rows :=
  [[Val.vi 0, Val.vs "key", Val.vs "TEXT", Val.vi 1, Val.vnull, Val.vi 0],
   [Val.vi 1, Val.vs "value", Val.vs "TEXT", Val.vi 0, Val.vnull, Val.vi 0]]
  ++ (if tbl.hasJsonized then
        [[Val.vi 2, Val.vs "jsonized", Val.vs "INTEGER", Val.vi 1, Val.vnull,
          Val.vi 0]]
      else [])

/-- The model of the SQLite engine on the statement shapes the code
issues.  Mirrors, per statement: CREATE TABLE IF NOT EXISTS is a no-op on
an existing table; DML on a missing table is an error; selecting or
writing the `jsonized` column when it does not exist is an error;
`PRAGMA table_info` on a missing table returns no rows (and no error);
INSERT enforces the UNIQUE key constraint; a row inserted or updated
without an explicit tag keeps the column default 0 resp. its old value. -/
def runQuery (q : Query) (db : DBState) : Except Err (Rows × DBState) :=
  match q with
  | .createTable tq =>
    match resolveIdent tq with
    | none => .error .malformedIdent
    | some t =>
      match lookupTable db t with
      | some _ => .ok ([], db)
      | none => .ok ([], ⟨db.tables ++ [(t, ⟨false, []⟩)]⟩)
  | .selectValue tq k withJson =>
    match resolveIdent tq with
    | none => .error .malformedIdent
    | some t =>
      match lookupTable db t with
      | none => .error .noSuchTable
      | some tbl =>
        if withJson && !tbl.hasJsonized then .error .noSuchColumn
        else
          .ok ((tbl.rows.filter (fun r => r.key = k)).map
                 (fun r => if withJson then [Val.vs r.value, Val.vi r.jsonized]
                           else [Val.vs r.value]), db)
  | .selectKeys tq =>
    match resolveIdent tq with
    | none => .error .malformedIdent
    | some t =>
      match lookupTable db t with
      | none => .error .noSuchTable
      | some tbl => .ok (tbl.rows.map (fun r => [Val.vs r.key]), db)
  | .insertRow tq k v tag =>
    match resolveIdent tq with
    | none => .error .malformedIdent
    | some t =>
      match lookupTable db t with
      | none => .error .noSuchTable
      | some tbl =>
        if tag.isSome && !tbl.hasJsonized then .error .noSuchColumn
        else if tbl.rows.any (fun r => r.key = k) then .error .uniqueViolation
        else
          .ok ([], setTable db t
                ⟨tbl.hasJsonized, tbl.rows ++ [⟨k, v, tag.getD 0⟩]⟩)
  | .updateRow tq k v tag =>
    match resolveIdent tq with
    | none => .error .malformedIdent
    | some t =>
      match lookupTable db t with
      | none => .error .noSuchTable
      | some tbl =>
        if tag.isSome && !tbl.hasJsonized then .error .noSuchColumn
        else
          .ok ([], setTable db t
                ⟨tbl.hasJsonized,
                 tbl.rows.map (fun r =>
                   if r.key = k then ⟨r.key, v, tag.getD r.jsonized⟩ else r)⟩)
  | .deleteKey tq k =>
    match resolveIdent tq with
    | none => .error .malformedIdent
    | some t =>
      match lookupTable db t with
      | none => .error .noSuchTable
      | some tbl =>
        .ok ([], setTable db t
              ⟨tbl.hasJsonized, tbl.rows.filter (fun r => ¬(r.key = k))⟩)
  | .dropTable tq =>
    match resolveIdent tq with
    | none => .error .malformedIdent
    | some t =>
      match lookupTable db t with
      | none => .error .noSuchTable
      | some _ => .ok ([], ⟨db.tables.filter (fun p => ¬(p.1 = t))⟩)
  | .alterAddJsonized tq =>
    match resolveIdent tq with
    | none => .error .malformedIdent
    | some t =>
      match lookupTable db t with
      | none => .error .noSuchTable
      | some tbl =>
        if tbl.hasJsonized then .error .duplicateColumn
        else .ok ([], setTable db t ⟨true, tbl.rows⟩)
  | .tableInfo tq =>
    match resolveIdent tq with
    | none => .error .malformedIdent
    | some t =>
      match lookupTable db t with
      | none => .ok ([], db)
      | some tbl => .ok (tableInfoRows tbl, db)
  | .listTables =>
    .ok (db.tables.filterMap (fun p =>
          if likeDbPat p.1.data then some [Val.vs p.1] else none), db)

/-! ## Python values and the serialization triage

`IndexedDB.__setitem__` classifies the value: a plain `str` is stored
as-is (tag 0); otherwise it tries `json.dumps` (tag 1) and falls back to
`b64encode(pickle.dumps(value))` (tag 2) on `TypeError`.
`IndexedDB.__getitem__` inverts using the stored tag.

`PyVal` models the Python values the library stores: strings, ints,
bools, `None`, lists, tuples, dicts (with string or int keys — the kinds
`json.dumps` accepts) and, as the representative JSON-unserializable
type, sets of ints (`json.dumps` raises `TypeError` on a `set`). -/

/-- A Python dict key (restricted to the kinds relevant here). -/
inductive JKey where
  | ks (s : String)
  | ki (n : Int)
deriving DecidableEq, Repr

/-- A Python value handed to / returned from the key-value store. -/
inductive PyVal where
  | pstr (s : String)
  | pint (n : Int)
  | pbool (b : Bool)
  | pnone
  | plist (xs : List PyVal)
  | ptuple (xs : List PyVal)
  | pdict (kvs : List (JKey × PyVal))
  | pset (xs : List Int)

/-- A JSON document (the data model of Python's `json` module, without
floats, which the library never needs for any claim). -/
inductive JVal where
  | jnull
  | jbool (b : Bool)
  | jint (n : Int)
  | jstr (s : String)
  | jarr (xs : List JVal)
  | jobj (kvs : List (String × JVal))

/-- Python `json.dumps` turns a non-string dict key into its `str(...)`. -/
def keyToString : JKey → String
  | .ks s => s
  | .ki n => toString n

mutual

/-- The conversion `json.dumps` performs from a Python value into the JSON
data model: tuples and lists both become arrays, dict keys become
strings; a `set` anywhere raises `TypeError`, modelled as `none`. -/
def pyToJson : PyVal → Option JVal
  | .pstr s => some (.jstr s)
  | .pint n => some (.jint n)
  | .pbool b => some (.jbool b)
  | .pnone => some .jnull
  | .plist xs => (pyToJsonList xs).map .jarr
  | .ptuple xs => (pyToJsonList xs).map .jarr
  | .pdict kvs => (pyToJsonPairs kvs).map .jobj
  | .pset _ => none

def pyToJsonList : List PyVal → Option (List JVal)
  | [] => some []
  | x :: xs =>
    match pyToJson x, pyToJsonList xs with
    | some j, some js => some (j :: js)
    | _, _ => none

def pyToJsonPairs : List (JKey × PyVal) → Option (List (String × JVal))
  | [] => some []
  | (k, v) :: kvs =>
    match pyToJson v, pyToJsonPairs kvs with
    | some j, some js => some ((keyToString k, j) :: js)
    | _, _ => none

end

mutual

/-- The conversion `json.loads` performs from a parsed JSON document back
into a Python value: arrays become lists, object keys are strings. -/
def jvalToPy : JVal → PyVal
  | .jnull => .pnone
  | .jbool b => .pbool b
  | .jint n => .pint n
  | .jstr s => .pstr s
  | .jarr xs => .plist (jvalToPyList xs)
  | .jobj kvs => .pdict (jvalToPyPairs kvs)

def jvalToPyList : List JVal → List PyVal
  | [] => []
  | x :: xs => jvalToPy x :: jvalToPyList xs

def jvalToPyPairs : List (String × JVal) → List (JKey × PyVal)
  | [] => []
  | (k, v) :: kvs => (.ks k, jvalToPy v) :: jvalToPyPairs kvs

end

mutual

/-- The canonical JSON image of a Python value: what
`json.loads(json.dumps(v))` returns — tuples collapsed to lists, dict
keys coerced to strings.  (On JSON-unserializable values it is never
reached; on `pset` it is the identity.) -/
def pyCanon : PyVal → PyVal
  | .pstr s => .pstr s
  | .pint n => .pint n
  | .pbool b => .pbool b
  | .pnone => .pnone
  | .plist xs => .plist (pyCanonList xs)
  | .ptuple xs => .plist (pyCanonList xs)
  | .pdict kvs => .pdict (pyCanonPairs kvs)
  | .pset xs => .pset xs

def pyCanonList : List PyVal → List PyVal
  | [] => []
  | x :: xs => pyCanon x :: pyCanonList xs

def pyCanonPairs : List (JKey × PyVal) → List (JKey × PyVal)
  | [] => []
  | (k, v) :: kvs => (.ks (keyToString k), pyCanon v) :: pyCanonPairs kvs

end

/-- Structural equality in the sense of the specification's round-trip
property: two Python values are structurally equal when they have the
same canonical JSON image (so a tuple and a list with pairwise
structurally-equal elements are structurally equal, and an int dict key
matches its string form). -/
def structurallyEqual (a b : PyVal) : Prop := pyCanon a = pyCanon b

mutual

/-- A value is in canonical JSON form when it contains no tuple, no set
and no non-string dict key — the shape of everything `json.loads`
produces. -/
def isCanonicalForm : PyVal → Bool
  | .pstr _ => true
  | .pint _ => true
  | .pbool _ => true
  | .pnone => true
  | .plist xs => isCanonicalFormList xs
  | .ptuple _ => false
  | .pdict kvs => isCanonicalFormPairs kvs
  | .pset _ => false

def isCanonicalFormList : List PyVal → Bool
  | [] => true
  | x :: xs => isCanonicalForm x && isCanonicalFormList xs

def isCanonicalFormPairs : List (JKey × PyVal) → Bool
  | [] => true
  | (k, v) :: kvs =>
    (match k with | .ks _ => true | .ki _ => false)
    && isCanonicalForm v && isCanonicalFormPairs kvs

end


/-! ## The model codec for `json.dumps` / `json.loads`

The library stores `json.dumps(value)` in the TEXT column and applies
`json.loads` on read.  No claim inspects the encoded text itself, so the
codec is modelled by a concrete executable pair with the contract of the
original: `jvalToText` injects JSON documents into strings and
`json_loads_text` inverts it.  The wire format is a postfix token stream;
decoding lexes the characters back into tokens and interprets them with a
small stack machine, which keeps the inversion proof a structural
induction. -/

/-- The tokens of the model wire format. -/
inductive Tok where
  | tn | tt | tf | tz | ts | tm | te | tS | tM | tA | tO
  | tc (c : Char)
deriving DecidableEq, Repr

/-- Characters of a token stream (the stored text). -/
def toksToChars : List Tok → List Char
  | [] => []
  | .tn :: ts => 'n' :: toksToChars ts
  | .tt :: ts => 't' :: toksToChars ts
  | .tf :: ts => 'f' :: toksToChars ts
  | .tz :: ts => 'z' :: toksToChars ts
  | .ts :: ts => 's' :: toksToChars ts
  | .tm :: ts => 'm' :: toksToChars ts
  | .te :: ts => 'e' :: toksToChars ts
  | .tS :: ts => 'S' :: toksToChars ts
  | .tM :: ts => 'M' :: toksToChars ts
  | .tA :: ts => 'A' :: toksToChars ts
  | .tO :: ts => 'O' :: toksToChars ts
  | .tc c :: ts => 'c' :: c :: toksToChars ts

mutual

/-- Lexing the stored text back into tokens (`c` escapes one payload
character of a string literal). -/
def lexTok : List Char → Option (List Tok)
  | [] => some []
  | ch :: rest =>
    if ch = 'c' then lexPayload rest
    else if ch = 'n' then (lexTok rest).map (Tok.tn :: ·)
    else if ch = 't' then (lexTok rest).map (Tok.tt :: ·)
    else if ch = 'f' then (lexTok rest).map (Tok.tf :: ·)
    else if ch = 'z' then (lexTok rest).map (Tok.tz :: ·)
    else if ch = 's' then (lexTok rest).map (Tok.ts :: ·)
    else if ch = 'm' then (lexTok rest).map (Tok.tm :: ·)
    else if ch = 'e' then (lexTok rest).map (Tok.te :: ·)
    else if ch = 'S' then (lexTok rest).map (Tok.tS :: ·)
    else if ch = 'M' then (lexTok rest).map (Tok.tM :: ·)
    else if ch = 'A' then (lexTok rest).map (Tok.tA :: ·)
    else if ch = 'O' then (lexTok rest).map (Tok.tO :: ·)
    else none

/-- Continuation of `lexTok` after a `c` escape: the next character is the
payload. -/
def lexPayload : List Char → Option (List Tok)
  | [] => none
  | c2 :: rest2 => (lexTok rest2).map (Tok.tc c2 :: ·)

end

/-- Encoding of one string token sequence: open accumulator, payload
characters (emitted reversed, the machine conses them back), close. -/
def encStrTok (s : String) : List Tok :=
  .te :: (s.data.reverse.map Tok.tc ++ [.tS])

mutual

/-- The model `json.dumps` serializer on JSON documents, as tokens. -/
def encJ : JVal → List Tok
  | .jnull => [.tn]
  | .jbool true => [.tt]
  | .jbool false => [.tf]
  | .jint n =>
    .tz :: (List.replicate n.natAbs .ts ++ (if n < 0 then [.tm] else []))
  | .jstr s => encStrTok s
  | .jarr xs => .tM :: (encJList xs ++ [.tA])
  | .jobj kvs => .tM :: (encJPairs kvs ++ [.tO])

def encJList : List JVal → List Tok
  | [] => []
  | x :: xs => encJ x ++ encJList xs

def encJPairs : List (String × JVal) → List Tok
  | [] => []
  | (k, v) :: kvs => encStrTok k ++ encJ v ++ encJPairs kvs

end

/-- A stack item of the decoding machine. -/
inductive SItem where
  | jv (j : JVal)
  | acc (cs : List Char)
  | mark

/-- Pop the values of an array (pushed above a mark), topmost first. -/
def popArr : List SItem → Option (List JVal × List SItem)
  | .mark :: st => some ([], st)
  | .jv v :: st => (popArr st).map (fun p => (v :: p.1, p.2))
  | _ => none

/-- Pop the key/value pairs of an object (each value above its key),
topmost pair first. -/
def popObj : List SItem → Option (List (String × JVal) × List SItem)
  | .jv v :: .jv (.jstr k) :: st =>
    (popObj st).map (fun p => ((k, v) :: p.1, p.2))
  | .mark :: st => some ([], st)
  | _ => none

/-- The decoding machine: one token per step; at end of input the stack
must hold exactly the decoded document. -/
def runToks : List Tok → List SItem → Option JVal
  | [], st => match st with | [SItem.jv j] => some j | _ => none
  | .tn :: rest, st => runToks rest (.jv .jnull :: st)
  | .tt :: rest, st => runToks rest (.jv (.jbool true) :: st)
  | .tf :: rest, st => runToks rest (.jv (.jbool false) :: st)
  | .tz :: rest, st => runToks rest (.jv (.jint 0) :: st)
  | .ts :: rest, st =>
    match st with
    | .jv (.jint m) :: st2 => runToks rest (.jv (.jint (m + 1)) :: st2)
    | _ => none
  | .tm :: rest, st =>
    match st with
    | .jv (.jint m) :: st2 => runToks rest (.jv (.jint (-m)) :: st2)
    | _ => none
  | .te :: rest, st => runToks rest (.acc [] :: st)
  | .tc c :: rest, st =>
    match st with
    | .acc cs :: st2 => runToks rest (.acc (c :: cs) :: st2)
    | _ => none
  | .tS :: rest, st =>
    match st with
    | .acc cs :: st2 => runToks rest (.jv (.jstr (String.mk cs)) :: st2)
    | _ => none
  | .tM :: rest, st => runToks rest (.mark :: st)
  | .tA :: rest, st =>
    match popArr st with
    | some (vs, st2) => runToks rest (.jv (.jarr vs.reverse) :: st2)
    | none => none
  | .tO :: rest, st =>
    match popObj st with
    | some (ps, st2) => runToks rest (.jv (.jobj ps.reverse) :: st2)
    | none => none

/-- The model `json.dumps` output text for a JSON document. -/
def jvalToText (j : JVal) : String := String.mk (toksToChars (encJ j))

/-- The model `json.loads`. -/
def json_loads_text (s : String) : Option JVal :=
  (lexTok s.data).bind (fun ts => runToks ts [])

theorem lexTok_toksToChars (ts : List Tok) :
    lexTok (toksToChars ts) = some ts := by
  induction ts with
  | nil => simp [toksToChars, lexTok]
  | cons t ts ih => cases t <;> simp [toksToChars, lexTok, lexPayload, ih]

/-- The stack after pushing the values of a list in order. -/
def arrStack : List JVal → List SItem → List SItem
  | [], st => st
  | x :: xs, st => arrStack xs (SItem.jv x :: st)

/-- The stack after pushing the key/value pairs of an object in order. -/
def pairsStack : List (String × JVal) → List SItem → List SItem
  | [], st => st
  | (k, v) :: kvs, st =>
    pairsStack kvs (SItem.jv v :: SItem.jv (.jstr k) :: st)

theorem popArr_arrStack (xs : List JVal) :
    ∀ (st0 : List SItem) (acc : List JVal) (st1 : List SItem),
    popArr st0 = some (acc, st1) →
    popArr (arrStack xs st0) = some (xs.reverse ++ acc, st1) := by
  induction xs with
  | nil => intro st0 acc st1 h; simpa [arrStack] using h
  | cons x xs ih =>
    intro st0 acc st1 h
    have h2 : popArr (SItem.jv x :: st0) = some (x :: acc, st1) := by
      simp [popArr, h]
    have h3 := ih (SItem.jv x :: st0) (x :: acc) st1 h2
    simpa [arrStack] using h3

theorem popObj_pairsStack (kvs : List (String × JVal)) :
    ∀ (st0 : List SItem) (acc : List (String × JVal)) (st1 : List SItem),
    popObj st0 = some (acc, st1) →
    popObj (pairsStack kvs st0) = some (kvs.reverse ++ acc, st1) := by
  induction kvs with
  | nil => intro st0 acc st1 h; simpa [pairsStack] using h
  | cons kv kvs ih =>
    intro st0 acc st1 h
    obtain ⟨k, v⟩ := kv
    have h2 : popObj (SItem.jv v :: SItem.jv (.jstr k) :: st0)
        = some ((k, v) :: acc, st1) := by
      simp [popObj, h]
    have h3 := ih (SItem.jv v :: SItem.jv (.jstr k) :: st0) ((k, v) :: acc)
      st1 h2
    simpa [pairsStack] using h3

theorem runToks_replicate_ts (k : Nat) :
    ∀ (m : Int) (rest : List Tok) (st : List SItem),
    runToks (List.replicate k .ts ++ rest) (.jv (.jint m) :: st)
      = runToks rest (.jv (.jint (m + k)) :: st) := by
  induction k with
  | zero => intro m rest st; simp
  | succ k ih =>
    intro m rest st
    rw [List.replicate_succ, List.cons_append, runToks, ih]
    have h : m + 1 + (k : Int) = m + ((k : Nat) + 1 : Nat) := by push_cast; ring
    rw [h]

theorem runToks_payload (l : List Char) :
    ∀ (cs : List Char) (rest : List Tok) (st : List SItem),
    runToks (l.map Tok.tc ++ rest) (.acc cs :: st)
      = runToks rest (.acc (l.reverse ++ cs) :: st) := by
  induction l with
  | nil => intro cs rest st; simp
  | cons c l ih =>
    intro cs rest st
    rw [List.map_cons, List.cons_append, runToks, ih]
    simp

theorem runToks_encStrTok (s : String) (rest : List Tok) (st : List SItem) :
    runToks (encStrTok s ++ rest) st
      = runToks rest (.jv (.jstr s) :: st) := by
  rw [encStrTok, List.cons_append, runToks, List.append_assoc,
      runToks_payload, List.singleton_append, runToks]
  simp

theorem runToks_encJList (xs : List JVal)
    (H : ∀ x ∈ xs, ∀ (rest : List Tok) (st : List SItem),
      runToks (encJ x ++ rest) st = runToks rest (.jv x :: st)) :
    ∀ (rest : List Tok) (st : List SItem),
    runToks (encJList xs ++ rest) st = runToks rest (arrStack xs st) := by
  induction xs with
  | nil => intro rest st; simp [encJList, arrStack]
  | cons x xs ih =>
    intro rest st
    rw [encJList, List.append_assoc, H x (by simp),
        ih (fun y hy => H y (by simp [hy]))]
    rfl

theorem runToks_encJPairs (kvs : List (String × JVal))
    (H : ∀ k v, (k, v) ∈ kvs → ∀ (rest : List Tok) (st : List SItem),
      runToks (encJ v ++ rest) st = runToks rest (.jv v :: st)) :
    ∀ (rest : List Tok) (st : List SItem),
    runToks (encJPairs kvs ++ rest) st = runToks rest (pairsStack kvs st) := by
  induction kvs with
  | nil => intro rest st; simp [encJPairs, pairsStack]
  | cons kv kvs ih =>
    intro rest st
    obtain ⟨k, v⟩ := kv
    rw [encJPairs, List.append_assoc, List.append_assoc, runToks_encStrTok,
        H k v (by simp), ih (fun k2 v2 h2 => H k2 v2 (by simp [h2]))]
    rfl

theorem runToks_encJ (j : JVal) :
    ∀ (rest : List Tok) (st : List SItem),
    runToks (encJ j ++ rest) st = runToks rest (.jv j :: st) := by
  intro rest st
  match j with
  | .jnull => rw [show encJ .jnull = [.tn] from rfl, List.singleton_append,
                  runToks]
  | .jbool true => rw [show encJ (.jbool true) = [.tt] from rfl,
                       List.singleton_append, runToks]
  | .jbool false => rw [show encJ (.jbool false) = [.tf] from rfl,
                        List.singleton_append, runToks]
  | .jint n =>
    rw [show encJ (.jint n)
          = .tz :: (List.replicate n.natAbs .ts
                     ++ (if n < 0 then [.tm] else [])) from rfl,
        List.cons_append, runToks, List.append_assoc, runToks_replicate_ts]
    by_cases hn : n < 0
    · rw [if_pos hn, List.singleton_append, runToks]
      have h : -(0 + (n.natAbs : Int)) = n := by omega
      rw [h]
    · rw [if_neg hn, List.nil_append]
      have h : (0 + (n.natAbs : Int)) = n := by omega
      rw [h]
  | .jstr s => exact runToks_encStrTok s rest st
  | .jarr xs =>
    rw [show encJ (.jarr xs) = .tM :: (encJList xs ++ [.tA]) from rfl,
        List.cons_append, runToks, List.append_assoc,
        runToks_encJList xs (fun x hx r2 s2 => runToks_encJ x r2 s2),
        List.singleton_append, runToks,
        popArr_arrStack xs (SItem.mark :: st) [] st rfl]
    simp
  | .jobj kvs =>
    rw [show encJ (.jobj kvs) = .tM :: (encJPairs kvs ++ [.tO]) from rfl,
        List.cons_append, runToks, List.append_assoc,
        runToks_encJPairs kvs (fun k v hkv r2 s2 => runToks_encJ v r2 s2),
        List.singleton_append, runToks,
        popObj_pairsStack kvs (SItem.mark :: st) [] st rfl]
    simp
termination_by sizeOf j
decreasing_by
  · have h1 := List.sizeOf_lt_of_mem hx
    simp only [JVal.jarr.sizeOf_spec]
    omega
  · have h1 := List.sizeOf_lt_of_mem hkv
    have h2 : sizeOf (k, v) = 1 + sizeOf k + sizeOf v := rfl
    simp only [JVal.jobj.sizeOf_spec]
    omega

/-- The model codec round-trips: decoding the encoding of any JSON
document yields it back (the contract shared with `json`). -/
theorem json_loads_jvalToText (j : JVal) :
    json_loads_text (jvalToText j) = some j := by
  have h := runToks_encJ j [] []
  rw [List.append_nil] at h
  rw [json_loads_text, jvalToText]
  show (lexTok (toksToChars (encJ j))).bind (fun ts => runToks ts []) = some j
  rw [lexTok_toksToChars]
  simp [h, runToks]

/-! ## The model codec for `b64encode(pickle.dumps(…))` / inverse

`__setitem__` falls back to `b64encode(pickle.dumps(value)).decode()` when
`json.dumps` raises `TypeError`; `__getitem__` inverts with
`pickle.loads(b64decode(value))`.  The pair is modelled exactly like the
JSON codec, over all of `PyVal` (pickle serializes tuples, sets and
non-string dict keys faithfully).  No claim depends on its round-trip, so
only the definitions are given. -/

/-- The tokens of the model pickle wire format. -/
inductive PTok where
  | qn | qt | qf | qz | qs | qm | qe | qS | qM | qA | qT | qD | qZ
  | qc (c : Char)
deriving DecidableEq, Repr

/-- Characters of a pickle token stream (the stored base64 text). -/
def ptoksToChars : List PTok → List Char
  | [] => []
  | .qn :: ts => 'n' :: ptoksToChars ts
  | .qt :: ts => 't' :: ptoksToChars ts
  | .qf :: ts => 'f' :: ptoksToChars ts
  | .qz :: ts => 'z' :: ptoksToChars ts
  | .qs :: ts => 's' :: ptoksToChars ts
  | .qm :: ts => 'm' :: ptoksToChars ts
  | .qe :: ts => 'e' :: ptoksToChars ts
  | .qS :: ts => 'S' :: ptoksToChars ts
  | .qM :: ts => 'M' :: ptoksToChars ts
  | .qA :: ts => 'A' :: ptoksToChars ts
  | .qT :: ts => 'U' :: ptoksToChars ts
  | .qD :: ts => 'D' :: ptoksToChars ts
  | .qZ :: ts => 'X' :: ptoksToChars ts
  | .qc c :: ts => 'c' :: c :: ptoksToChars ts

mutual

/-- Lexer of the model pickle text. -/
def lexPTok : List Char → Option (List PTok)
  | [] => some []
  | ch :: rest =>
    if ch = 'c' then lexPPayload rest
    else if ch = 'n' then (lexPTok rest).map (PTok.qn :: ·)
    else if ch = 't' then (lexPTok rest).map (PTok.qt :: ·)
    else if ch = 'f' then (lexPTok rest).map (PTok.qf :: ·)
    else if ch = 'z' then (lexPTok rest).map (PTok.qz :: ·)
    else if ch = 's' then (lexPTok rest).map (PTok.qs :: ·)
    else if ch = 'm' then (lexPTok rest).map (PTok.qm :: ·)
    else if ch = 'e' then (lexPTok rest).map (PTok.qe :: ·)
    else if ch = 'S' then (lexPTok rest).map (PTok.qS :: ·)
    else if ch = 'M' then (lexPTok rest).map (PTok.qM :: ·)
    else if ch = 'A' then (lexPTok rest).map (PTok.qA :: ·)
    else if ch = 'U' then (lexPTok rest).map (PTok.qT :: ·)
    else if ch = 'D' then (lexPTok rest).map (PTok.qD :: ·)
    else if ch = 'X' then (lexPTok rest).map (PTok.qZ :: ·)
    else none

/-- Continuation of `lexPTok` after a payload escape. -/
def lexPPayload : List Char → Option (List PTok)
  | [] => none
  | c2 :: rest2 => (lexPTok rest2).map (PTok.qc c2 :: ·)

end

/-- A stack item of the pickle decoding machine. -/
inductive PItem where
  | pv (v : PyVal)
  | acc (cs : List Char)
  | mark

/-- Pop list/tuple elements (pushed above a mark), topmost first. -/
def popArrP : List PItem → Option (List PyVal × List PItem)
  | .mark :: st => some ([], st)
  | .pv v :: st => (popArrP st).map (fun p => (v :: p.1, p.2))
  | _ => none

/-- Pop dict pairs (value above key; keys are strings or ints). -/
def popObjP : List PItem → Option (List (JKey × PyVal) × List PItem)
  | .pv v :: .pv (.pstr s) :: st =>
    (popObjP st).map (fun p => ((JKey.ks s, v) :: p.1, p.2))
  | .pv v :: .pv (.pint n) :: st =>
    (popObjP st).map (fun p => ((JKey.ki n, v) :: p.1, p.2))
  | .mark :: st => some ([], st)
  | _ => none

/-- Pop set elements (ints pushed above a mark), topmost first. -/
def popSetP : List PItem → Option (List Int × List PItem)
  | .mark :: st => some ([], st)
  | .pv (.pint n) :: st => (popSetP st).map (fun p => (n :: p.1, p.2))
  | _ => none

/-- The pickle decoding machine. -/
def runPToks : List PTok → List PItem → Option PyVal
  | [], st => match st with | [PItem.pv v] => some v | _ => none
  | .qn :: rest, st => runPToks rest (.pv .pnone :: st)
  | .qt :: rest, st => runPToks rest (.pv (.pbool true) :: st)
  | .qf :: rest, st => runPToks rest (.pv (.pbool false) :: st)
  | .qz :: rest, st => runPToks rest (.pv (.pint 0) :: st)
  | .qs :: rest, st =>
    match st with
    | .pv (.pint m) :: st2 => runPToks rest (.pv (.pint (m + 1)) :: st2)
    | _ => none
  | .qm :: rest, st =>
    match st with
    | .pv (.pint m) :: st2 => runPToks rest (.pv (.pint (-m)) :: st2)
    | _ => none
  | .qe :: rest, st => runPToks rest (.acc [] :: st)
  | .qc c :: rest, st =>
    match st with
    | .acc cs :: st2 => runPToks rest (.acc (c :: cs) :: st2)
    | _ => none
  | .qS :: rest, st =>
    match st with
    | .acc cs :: st2 => runPToks rest (.pv (.pstr (String.mk cs)) :: st2)
    | _ => none
  | .qM :: rest, st => runPToks rest (.mark :: st)
  | .qA :: rest, st =>
    match popArrP st with
    | some (vs, st2) => runPToks rest (.pv (.plist vs.reverse) :: st2)
    | none => none
  | .qT :: rest, st =>
    match popArrP st with
    | some (vs, st2) => runPToks rest (.pv (.ptuple vs.reverse) :: st2)
    | none => none
  | .qD :: rest, st =>
    match popObjP st with
    | some (ps, st2) => runPToks rest (.pv (.pdict ps.reverse) :: st2)
    | none => none
  | .qZ :: rest, st =>
    match popSetP st with
    | some (ns, st2) => runPToks rest (.pv (.pset ns.reverse) :: st2)
    | none => none

/-- Pickle string-payload token sequence. -/
def encPStr (s : String) : List PTok :=
  .qe :: (s.data.reverse.map PTok.qc ++ [.qS])

/-- Pickle int token sequence. -/
def encPInt (n : Int) : List PTok :=
  .qz :: (List.replicate n.natAbs .qs ++ (if n < 0 then [.qm] else []))

/-- Pickle set-element token sequence. -/
def encPInts : List Int → List PTok
  | [] => []
  | n :: ns => encPInt n ++ encPInts ns

/-- Pickle dict-key token sequence. -/
def encPKey : JKey → List PTok
  | .ks s => encPStr s
  | .ki n => encPInt n

mutual

/-- The model `pickle.dumps` (composed with base64) serializer. -/
def encP : PyVal → List PTok
  | .pstr s => encPStr s
  | .pint n => encPInt n
  | .pbool true => [.qt]
  | .pbool false => [.qf]
  | .pnone => [.qn]
  | .plist xs => .qM :: (encPList xs ++ [.qA])
  | .ptuple xs => .qM :: (encPList xs ++ [.qT])
  | .pdict kvs => .qM :: (encPPairs kvs ++ [.qD])
  | .pset ns => .qM :: (encPInts ns ++ [.qZ])

def encPList : List PyVal → List PTok
  | [] => []
  | x :: xs => encP x ++ encPList xs

def encPPairs : List (JKey × PyVal) → List PTok
  | [] => []
  | (k, v) :: kvs => encPKey k ++ encP v ++ encPPairs kvs

end

/-- Model of `b64encode(pickle.dumps(value)).decode('ascii')`. -/
def pickle_dumps_b64 (v : PyVal) : String :=
  String.mk (ptoksToChars (encP v))

/-- Model of `pickle.loads(b64decode(text))`. -/
def pickle_loads_b64 (s : String) : Option PyVal :=
  (lexPTok s.data).bind (fun ts => runPToks ts [])

/-! ## `json.dumps` / `json.loads` at the Python-value level -/

/-- Python `json.dumps(value)`: `none` models the `TypeError` raised on a
JSON-unserializable value. -/
def json_dumps_py (v : PyVal) : Option String := (pyToJson v).map jvalToText

/-- Python `json.loads(text)`: `none` models `JSONDecodeError`. -/
def json_loads_py (s : String) : Option PyVal :=
  (json_loads_text s).map jvalToPy

theorem jvalToPyList_pyToJsonList (xs : List PyVal)
    (H : ∀ x ∈ xs, ∀ j, pyToJson x = some j → jvalToPy j = pyCanon x) :
    ∀ js, pyToJsonList xs = some js → jvalToPyList js = pyCanonList xs := by
  induction xs with
  | nil =>
    intro js h
    simp only [pyToJsonList, Option.some.injEq] at h
    subst h
    rfl
  | cons x xs ih =>
    intro js h
    rw [pyToJsonList] at h
    cases hx : pyToJson x with
    | none => rw [hx] at h; simp at h
    | some j1 =>
      cases hxs : pyToJsonList xs with
      | none => rw [hx, hxs] at h; simp at h
      | some js1 =>
        rw [hx, hxs] at h
        simp only [Option.some.injEq] at h
        subst h
        rw [jvalToPyList, pyCanonList, H x (by simp) j1 hx,
            ih (fun y hy => H y (by simp [hy])) js1 hxs]

theorem jvalToPyPairs_pyToJsonPairs (kvs : List (JKey × PyVal))
    (H : ∀ k v, (k, v) ∈ kvs →
      ∀ j, pyToJson v = some j → jvalToPy j = pyCanon v) :
    ∀ ps, pyToJsonPairs kvs = some ps → jvalToPyPairs ps = pyCanonPairs kvs := by
  induction kvs with
  | nil =>
    intro ps h
    simp only [pyToJsonPairs, Option.some.injEq] at h
    subst h
    rfl
  | cons kv kvs ih =>
    intro ps h
    obtain ⟨k, v⟩ := kv
    rw [pyToJsonPairs] at h
    cases hv : pyToJson v with
    | none => rw [hv] at h; simp at h
    | some j1 =>
      cases hkvs : pyToJsonPairs kvs with
      | none => rw [hv, hkvs] at h; simp at h
      | some ps1 =>
        rw [hv, hkvs] at h
        simp only [Option.some.injEq] at h
        subst h
        rw [jvalToPyPairs, pyCanonPairs, H k v (by simp) j1 hv,
            ih (fun k2 v2 h2 => H k2 v2 (by simp [h2])) ps1 hkvs]

/-- What `json.loads` returns after `json.dumps` succeeds is exactly the
canonical JSON image of the original value. -/
theorem jvalToPy_pyToJson (v : PyVal) :
    ∀ j, pyToJson v = some j → jvalToPy j = pyCanon v := by
  intro j h
  match v with
  | .pstr s =>
    simp only [pyToJson, Option.some.injEq] at h
    subst h; rfl
  | .pint n =>
    simp only [pyToJson, Option.some.injEq] at h
    subst h; rfl
  | .pbool b =>
    simp only [pyToJson, Option.some.injEq] at h
    subst h; rfl
  | .pnone =>
    simp only [pyToJson, Option.some.injEq] at h
    subst h; rfl
  | .plist xs =>
    rw [show pyToJson (.plist xs) = (pyToJsonList xs).map .jarr from rfl] at h
    cases hxs : pyToJsonList xs with
    | none => rw [hxs] at h; simp at h
    | some js =>
      rw [hxs] at h
      simp only [Option.map_some', Option.some.injEq] at h
      subst h
      rw [show jvalToPy (.jarr js) = .plist (jvalToPyList js) from rfl,
          show pyCanon (.plist xs) = .plist (pyCanonList xs) from rfl,
          jvalToPyList_pyToJsonList xs
            (fun x hx => jvalToPy_pyToJson x) js hxs]
  | .ptuple xs =>
    rw [show pyToJson (.ptuple xs) = (pyToJsonList xs).map .jarr from rfl] at h
    cases hxs : pyToJsonList xs with
    | none => rw [hxs] at h; simp at h
    | some js =>
      rw [hxs] at h
      simp only [Option.map_some', Option.some.injEq] at h
      subst h
      rw [show jvalToPy (.jarr js) = .plist (jvalToPyList js) from rfl,
          show pyCanon (.ptuple xs) = .plist (pyCanonList xs) from rfl,
          jvalToPyList_pyToJsonList xs
            (fun x hx => jvalToPy_pyToJson x) js hxs]
  | .pdict kvs =>
    rw [show pyToJson (.pdict kvs) = (pyToJsonPairs kvs).map .jobj from rfl]
      at h
    cases hkvs : pyToJsonPairs kvs with
    | none => rw [hkvs] at h; simp at h
    | some ps =>
      rw [hkvs] at h
      simp only [Option.map_some', Option.some.injEq] at h
      subst h
      rw [show jvalToPy (.jobj ps) = .pdict (jvalToPyPairs ps) from rfl,
          show pyCanon (.pdict kvs) = .pdict (pyCanonPairs kvs) from rfl,
          jvalToPyPairs_pyToJsonPairs kvs
            (fun k2 v2 hkv => jvalToPy_pyToJson v2) ps hkvs]
  | .pset ns => simp [pyToJson] at h
termination_by sizeOf v
decreasing_by
  · have h1 := List.sizeOf_lt_of_mem hx
    simp only [PyVal.plist.sizeOf_spec]
    omega
  · have h1 := List.sizeOf_lt_of_mem hx
    simp only [PyVal.ptuple.sizeOf_spec]
    omega
  · have h1 := List.sizeOf_lt_of_mem hkv
    have h2 : sizeOf (k2, v2) = 1 + sizeOf k2 + sizeOf v2 := rfl
    simp only [PyVal.pdict.sizeOf_spec]
    omega

theorem isCanonicalFormList_jvalToPyList (js : List JVal)
    (H : ∀ j ∈ js, isCanonicalForm (jvalToPy j) = true) :
    isCanonicalFormList (jvalToPyList js) = true := by
  induction js with
  | nil => rfl
  | cons j js ih =>
    rw [jvalToPyList, isCanonicalFormList, H j (by simp),
        ih (fun y hy => H y (by simp [hy]))]
    rfl

theorem isCanonicalFormPairs_jvalToPyPairs (ps : List (String × JVal))
    (H : ∀ k v, (k, v) ∈ ps → isCanonicalForm (jvalToPy v) = true) :
    isCanonicalFormPairs (jvalToPyPairs ps) = true := by
  induction ps with
  | nil => rfl
  | cons p ps ih =>
    obtain ⟨k, v⟩ := p
    rw [jvalToPyPairs, isCanonicalFormPairs, H k v (by simp),
        ih (fun k2 v2 h2 => H k2 v2 (by simp [h2]))]
    rfl

/-- Everything `json.loads` produces is in canonical form: no tuples, no
sets, only string dict keys. -/
theorem isCanonicalForm_jvalToPy (j : JVal) :
    isCanonicalForm (jvalToPy j) = true := by
  match j with
  | .jnull => rfl
  | .jbool b => rfl
  | .jint n => rfl
  | .jstr s => rfl
  | .jarr xs =>
    rw [show jvalToPy (.jarr xs) = .plist (jvalToPyList xs) from rfl]
    rw [show isCanonicalForm (PyVal.plist (jvalToPyList xs))
          = isCanonicalFormList (jvalToPyList xs) from rfl]
    exact isCanonicalFormList_jvalToPyList xs
      (fun x hx => isCanonicalForm_jvalToPy x)
  | .jobj kvs =>
    rw [show jvalToPy (.jobj kvs) = .pdict (jvalToPyPairs kvs) from rfl]
    rw [show isCanonicalForm (PyVal.pdict (jvalToPyPairs kvs))
          = isCanonicalFormPairs (jvalToPyPairs kvs) from rfl]
    exact isCanonicalFormPairs_jvalToPyPairs kvs
      (fun k2 v2 hkv => isCanonicalForm_jvalToPy v2)
termination_by sizeOf j
decreasing_by
  · have h1 := List.sizeOf_lt_of_mem hx
    simp only [JVal.jarr.sizeOf_spec]
    omega
  · have h1 := List.sizeOf_lt_of_mem hkv
    have h2 : sizeOf (k2, v2) = 1 + sizeOf k2 + sizeOf v2 := rfl
    simp only [JVal.jobj.sizeOf_spec]
    omega

theorem pyCanonList_idem (xs : List PyVal)
    (H : ∀ x ∈ xs, pyCanon (pyCanon x) = pyCanon x) :
    pyCanonList (pyCanonList xs) = pyCanonList xs := by
  induction xs with
  | nil => rfl
  | cons x xs ih =>
    rw [pyCanonList, pyCanonList, H x (by simp),
        ih (fun y hy => H y (by simp [hy]))]

theorem pyCanonPairs_idem (kvs : List (JKey × PyVal))
    (H : ∀ k v, (k, v) ∈ kvs → pyCanon (pyCanon v) = pyCanon v) :
    pyCanonPairs (pyCanonPairs kvs) = pyCanonPairs kvs := by
  induction kvs with
  | nil => rfl
  | cons kv kvs ih =>
    obtain ⟨k, v⟩ := kv
    rw [pyCanonPairs, pyCanonPairs, H k v (by simp),
        ih (fun k2 v2 h2 => H k2 v2 (by simp [h2]))]
    rfl

/-- The canonical JSON image is a fixed point of canonicalization. -/
theorem pyCanon_idem (v : PyVal) : pyCanon (pyCanon v) = pyCanon v := by
  match v with
  | .pstr s => rfl
  | .pint n => rfl
  | .pbool b => rfl
  | .pnone => rfl
  | .pset ns => rfl
  | .plist xs =>
    rw [show pyCanon (.plist xs) = .plist (pyCanonList xs) from rfl,
        show pyCanon (PyVal.plist (pyCanonList xs))
          = .plist (pyCanonList (pyCanonList xs)) from rfl,
        pyCanonList_idem xs (fun x hx => pyCanon_idem x)]
  | .ptuple xs =>
    rw [show pyCanon (.ptuple xs) = .plist (pyCanonList xs) from rfl,
        show pyCanon (PyVal.plist (pyCanonList xs))
          = .plist (pyCanonList (pyCanonList xs)) from rfl,
        pyCanonList_idem xs (fun x hx => pyCanon_idem x)]
  | .pdict kvs =>
    rw [show pyCanon (.pdict kvs) = .pdict (pyCanonPairs kvs) from rfl,
        show pyCanon (PyVal.pdict (pyCanonPairs kvs))
          = .pdict (pyCanonPairs (pyCanonPairs kvs)) from rfl,
        pyCanonPairs_idem kvs (fun k2 v2 hkv => pyCanon_idem v2)]
termination_by sizeOf v
decreasing_by
  · have h1 := List.sizeOf_lt_of_mem hx
    simp only [PyVal.plist.sizeOf_spec]
    omega
  · have h1 := List.sizeOf_lt_of_mem hx
    simp only [PyVal.ptuple.sizeOf_spec]
    omega
  · have h1 := List.sizeOf_lt_of_mem hkv
    have h2 : sizeOf (k2, v2) = 1 + sizeOf k2 + sizeOf v2 := rfl
    simp only [PyVal.pdict.sizeOf_spec]
    omega

/-! ## The `IndexedDB` layer

A handle (`IndexedDB.__init__`) holds the quoted table identifier and two
memo fields: whether the table has been created by this handle and the
cached result of the jsonization probe.  Every operation threads the
handle, the engine state and the trace of commands handed to the
`SQLiteDB` facade (`Cmd.exec` for `execute`, `Cmd.commitCmd` for
`commit`); a raised exception aborts the operation but keeps the state
and trace changes made so far, as in Python. -/

/-- The Python-side state of one `IndexedDB` handle. -/
structure IndexedDB where
  table : String
  table_created : Bool
  supports_jsonization : Option Bool
deriving DecidableEq, Repr

/-- One command handed to the `SQLiteDB` facade. -/
inductive Cmd where
  | exec (q : Query)
  | commitCmd
deriving DecidableEq, Repr

/-- The state an `IndexedDB` operation acts on. -/
structure IState where
  h : IndexedDB
  db : DBState
  tr : List Cmd
deriving DecidableEq, Repr

/-- `SQLiteDB.execute` as used by the key-value layer: the command is
enqueued (recorded in the trace) and processed against the connection;
an engine error is re-raised to the caller. -/
def dbExecute (q : Query) (s : IState) : Except Err Rows × IState :=
  match runQuery q s.db with
  | .ok (rows, db2) => (.ok rows, { s with db := db2, tr := s.tr ++ [.exec q] })
  | .error e => (.error e, { s with tr := s.tr ++ [.exec q] })

/-- `SQLiteDB.commit`: the worker commits and responds `True`. -/
def dbCommit (s : IState) : Except Err Bool × IState :=
  (.ok true, { s with tr := s.tr ++ [.commitCmd] })

/-- `IndexedDB.__create_table`: memoized CREATE TABLE IF NOT EXISTS. -/
def IndexedDB.create_table (s : IState) : Except Err Unit × IState :=
  if s.h.table_created then (.ok (), s)
  else
    match dbExecute (.createTable s.h.table) s with
    | (.ok _, s2) =>
      (.ok (), { s2 with h := { s2.h with table_created := true } })
    | (.error e, s2) => (.error e, s2)

/-- `IndexedDB.__test_supports_jsonization`: memoized PRAGMA probe for the
`jsonized` column (field index 1 of each `table_info` row is the column
name). -/
def IndexedDB.test_supports_jsonization (s : IState) :
    Except Err Bool × IState :=
  match s.h.supports_jsonization with
  | some b => (.ok b, s)
  | none =>
    match IndexedDB.create_table s with
    | (.error e, s2) => (.error e, s2)
    | (.ok _, s2) =>
      match dbExecute (.tableInfo s2.h.table) s2 with
      | (.error e, s3) => (.error e, s3)
      | (.ok rows, s3) =>
        if rows.any (fun r => (r.getD 1 Val.vnull).asStr = "jsonized") then
          (.ok true,
           { s3 with h := { s3.h with supports_jsonization := some true } })
        else
          (.ok false,
           { s3 with h := { s3.h with supports_jsonization := some false } })

/-- `IndexedDB.__support_jsonization`: return if the probe (or memo) finds
the column, otherwise ALTER TABLE to add it and set the memo. -/
def IndexedDB.support_jsonization (s : IState) : Except Err Unit × IState :=
  if s.h.supports_jsonization = some true then (.ok (), s)
  else
    match IndexedDB.test_supports_jsonization s with
    | (.error e, s2) => (.error e, s2)
    | (.ok true, s2) => (.ok (), s2)
    | (.ok false, s2) =>
      match dbExecute (.alterAddJsonized s2.h.table) s2 with
      | (.error e, s3) => (.error e, s3)
      | (.ok _, s3) =>
        (.ok (), { s3 with h := { s3.h with supports_jsonization := some true } })

/-- `IndexedDB.key_exists`. -/
def IndexedDB.key_exists (item : String) (s : IState) :
    Except Err Bool × IState :=
  match IndexedDB.create_table s with
  | (.error e, s2) => (.error e, s2)
  | (.ok _, s2) =>
    match dbExecute (.selectValue s2.h.table item false) s2 with
    | (.error e, s3) => (.error e, s3)
    | (.ok rows, s3) => (.ok (!rows.isEmpty), s3)

/-- `IndexedDB.keys` (the Python set of key strings, as a list; claims
only use membership). -/
def IndexedDB.keys (s : IState) : Except Err (List String) × IState :=
  match IndexedDB.create_table s with
  | (.error e, s2) => (.error e, s2)
  | (.ok _, s2) =>
    match dbExecute (.selectKeys s2.h.table) s2 with
    | (.error e, s3) => (.error e, s3)
    | (.ok rows, s3) =>
      (.ok (rows.map (fun r => (r.getD 0 Val.vnull).asStr)), s3)

/-- `IndexedDB.__getitem__`. -/
def IndexedDB.getitem (item : String) (s : IState) :
    Except Err PyVal × IState :=
  match IndexedDB.create_table s with
  | (.error e, s2) => (.error e, s2)
  | (.ok _, s2) =>
    match IndexedDB.test_supports_jsonization s2 with
    | (.error e, s3) => (.error e, s3)
    | (.ok js, s3) =>
      match dbExecute (.selectValue s3.h.table item js) s3 with
      | (.error e, s4) => (.error e, s4)
      | (.ok rows, s4) =>
        match rows with
        | [] => (.error .keyNotFound, s4)
        | r0 :: _ =>
          let value := (r0.getD 0 Val.vnull).asStr
          if s4.h.supports_jsonization = some true then
            let jstate := (r0.getD 1 Val.vnull).asInt
            if jstate = 1 then
              match json_loads_py value with
              | some w => (.ok w, s4)
              | none => (.error .decodeFailure, s4)
            else if jstate = 2 then
              match pickle_loads_b64 value with
              | some w => (.ok w, s4)
              | none => (.error .decodeFailure, s4)
            else (.ok (.pstr value), s4)
          else (.ok (.pstr value), s4)

/-- The inline triage block of `IndexedDB.__setitem__` (named here so its
behaviour can be stated on its own): `jsonized_status = 0` for a plain
string; otherwise run `__support_jsonization`, then try `json.dumps`
(tag 1) and fall back to base64-pickle (tag 2) on `TypeError`. -/
def IndexedDB.setitem_triage (value : PyVal) (s2 : IState) :
    Except Err (String × Int) × IState :=
  match value with
  | .pstr t => (.ok (t, (0 : Int)), s2)
  | _ =>
    match IndexedDB.support_jsonization s2 with
    | (.error e, s2b) => (.error e, s2b)
    | (.ok _, s2b) =>
      match json_dumps_py value with
      | some txt => (.ok (txt, (1 : Int)), s2b)
      | none => (.ok (pickle_dumps_b64 value, (2 : Int)), s2b)

/-- The write phase of `IndexedDB.__setitem__` after the triage (named
here so its behaviour can be stated on its own): UPDATE-if-exists-else-
INSERT with the triaged text and tag, then commit. -/
def IndexedDB.setitem_write (key txt : String) (tag : Int) (s3 : IState) :
    Except Err Unit × IState :=
  match IndexedDB.key_exists key s3 with
  | (.error e, s4) => (.error e, s4)
  | (.ok true, s4) =>
    match IndexedDB.test_supports_jsonization s4 with
    | (.error e, s5) => (.error e, s5)
    | (.ok js, s5) =>
      match (if js then dbExecute (.updateRow s5.h.table key txt (some tag)) s5
             else dbExecute (.updateRow s5.h.table key txt none) s5) with
      | (.error e, s6) => (.error e, s6)
      | (.ok _, s6) =>
        match dbCommit s6 with
        | (_, s7) => (.ok (), s7)
  | (.ok false, s4) =>
    match (if s4.h.supports_jsonization = some true
           then dbExecute (.insertRow s4.h.table key txt (some tag)) s4
           else dbExecute (.insertRow s4.h.table key txt none) s4) with
    | (.error e, s6) => (.error e, s6)
    | (.ok _, s6) =>
      match dbCommit s6 with
      | (_, s7) => (.ok (), s7)

/-- `IndexedDB.__setitem__`: triage (with migration for non-strings), then
UPDATE-if-exists-else-INSERT, then commit. -/
def IndexedDB.setitem (key : String) (value : PyVal) (s : IState) :
    Except Err Unit × IState :=
  match IndexedDB.create_table s with
  | (.error e, s2) => (.error e, s2)
  | (.ok _, s2) =>
    match IndexedDB.setitem_triage value s2 with
    | (.error e, s3) => (.error e, s3)
    | (.ok (txt, tag), s3) => IndexedDB.setitem_write key txt tag s3

/-- `IndexedDB.__delitem__`: DELETE, with no commit. -/
def IndexedDB.delitem (key : String) (s : IState) : Except Err Unit × IState :=
  match IndexedDB.create_table s with
  | (.error e, s2) => (.error e, s2)
  | (.ok _, s2) =>
    match dbExecute (.deleteKey s2.h.table key) s2 with
    | (.error e, s3) => (.error e, s3)
    | (.ok _, s3) => (.ok (), s3)

/-- `IndexedDB.drop_db`. -/
def IndexedDB.drop_db (s : IState) : Except Err Unit × IState :=
  match IndexedDB.create_table s with
  | (.error e, s2) => (.error e, s2)
  | (.ok _, s2) =>
    match dbExecute (.dropTable s2.h.table) s2 with
    | (.error e, s3) => (.error e, s3)
    | (.ok _, s3) => (.ok (), s3)

/-! ## The `IndexedDBManager` layer -/

/-- A fresh handle, as built by `IndexedDB.__init__`. -/
def newHandle (db_name : String) : IndexedDB :=
  { table := quotedTable db_name
    table_created := false
    supports_jsonization := none }

/-- The manager state: the handle cache (a Python dict, insertion
ordered), the engine state and the command trace. -/
structure MgrState where
  cache : List (String × IndexedDB)
  db : DBState
  tr : List Cmd
deriving DecidableEq, Repr

/-- A freshly constructed manager over a fresh database file. -/
def emptyMgr : MgrState := ⟨[], emptyDB, []⟩

/-- `IndexedDBManager.__getitem__`: evict one randomly chosen entry when
the cache holds more than 128 entries, then memoize a handle for `item`.
The random `choice` over the dict's keys is modelled by the index oracle
`pick` (reduced modulo the cache size). -/
def IndexedDBManager.getitem (item : String) (pick : Nat) (m : MgrState) :
    IndexedDB × MgrState :=
  let c1 := if m.cache.length > 128
            then m.cache.eraseIdx (pick % m.cache.length)
            else m.cache
  let c2 := if c1.any (fun p => p.1 = item) then c1
            else c1 ++ [(item, newHandle item)]
  (((c2.find? (fun p => p.1 = item)).map (·.2)).getD (newHandle item),
   { m with cache := c2 })

/-- Python `manager[item].method(...)`: fetch the (possibly fresh) handle
through `__getitem__`, run the method, and reflect the in-place mutation
of the cached handle object. -/
def IndexedDBManager.withStore {α : Type} (item : String) (pick : Nat)
    (f : IState → Except Err α × IState) (m : MgrState) :
    Except Err α × MgrState :=
  match IndexedDBManager.getitem item pick m with
  | (h, m2) =>
    match f ⟨h, m2.db, m2.tr⟩ with
    | (r, s2) =>
      (r, { cache := m2.cache.map (fun p => if p.1 = item then (item, s2.h) else p)
            db := s2.db
            tr := s2.tr })

/-- `IndexedDBManager.keys`: list the `db_`-prefixed tables and strip the
3-character prefix (Python `table[0][3:]`; the result is a set, claims
only use membership). -/
def IndexedDBManager.keys (m : MgrState) : Except Err (List String) × MgrState :=
  match runQuery .listTables m.db with
  | .ok (rows, db2) =>
    (.ok (rows.map (fun r => strDrop (r.getD 0 Val.vnull).asStr 3)),
     { m with db := db2, tr := m.tr ++ [.exec .listTables] })
  | .error e => (.error e, { m with tr := m.tr ++ [.exec .listTables] })

/-- `IndexedDBManager.__contains__`: membership in `keys()`. -/
def IndexedDBManager.contains (item : String) (m : MgrState) :
    Except Err Bool × MgrState :=
  match IndexedDBManager.keys m with
  | (.ok names, m2) => (.ok (decide (item ∈ names)), m2)
  | (.error e, m2) => (.error e, m2)

/-- `IndexedDBManager.__delitem__`: `self[key].drop_db()` — the handle is
fetched (and cached) through `__getitem__`, its table dropped, and the
mutated handle stays in the cache. -/
def IndexedDBManager.delitem (key : String) (pick : Nat) (m : MgrState) :
    Except Err Unit × MgrState :=
  IndexedDBManager.withStore key pick IndexedDB.drop_db m

/-! ## The worker loop of `sqlitedb.py` -/

/-- A queued command (`DBCommandSQL`, `DBCommandCommit`, `DBCommandQuit`). -/
inductive DBCommand where
  | sqlCmd (q : Query)
  | commitC
  | quitC
deriving DecidableEq, Repr

/-- A worker response (`DBRespond`): rows, an acknowledgement, or an
exception passed back as a value. -/
inductive DBRespond where
  | rows (r : Rows)
  | ack (b : Bool)
  | err (e : Err)
deriving DecidableEq, Repr

/-- The worker loop `thread_db_connection`, applied to the sequence of
commands enqueued over the instance's lifetime: each iteration takes the
next command and produces exactly one response; `DBCommandQuit` sets
`self.exited = True` and responds `True`, after which
`thread_db_keep_running()` is false, so the loop exits (final commit and
close) and commands queued behind the Quit are never serviced. -/
def thread_db_connection : DBState → List DBCommand → List DBRespond
  | _, [] => []
  | db, .sqlCmd q :: rest =>
    match runQuery q db with
    | .ok (rows, db2) => .rows rows :: thread_db_connection db2 rest
    | .error e => .err e :: thread_db_connection db rest
  | db, .commitC :: rest => .ack true :: thread_db_connection db rest
  | _, .quitC :: _ => [.ack true]

/-! ## Basic facts about the engine state and command traces -/

/-- The rows of a table holding a given key (the WHERE clause). -/
def rowsFor (T : DBTable) (k : String) : List DBRow :=
  T.rows.filter (fun r => r.key = k)

/-- Whether a command is the ALTER-TABLE migration. -/
def Cmd.isAlter : Cmd → Bool
  | .exec (.alterAddJsonized _) => true
  | _ => false

theorem findT_set_self (l : List (String × DBTable)) (t : String)
    (tbl : DBTable) :
    (l.find? (fun p => p.1 = t)).isSome = true →
    ((l.map (fun p => if p.1 = t then (t, tbl) else p)).find?
        (fun p => p.1 = t)) = some (t, tbl) := by
  induction l with
  | nil => intro h; simp at h
  | cons p ps ih =>
    intro h
    by_cases hp : p.1 = t
    · simp [List.find?_cons, hp]
    · rw [List.find?_cons_of_neg _ (by simpa using hp)] at h
      rw [List.map_cons, if_neg hp,
          List.find?_cons_of_neg _ (by simpa using hp)]
      exact ih h

theorem findT_set_other (l : List (String × DBTable)) (t t0 : String)
    (tbl : DBTable) (hne : t0 ≠ t) :
    ((l.map (fun p => if p.1 = t then (t, tbl) else p)).find?
        (fun p => p.1 = t0)) = l.find? (fun p => p.1 = t0) := by
  induction l with
  | nil => simp
  | cons p ps ih =>
    by_cases hp : p.1 = t
    · have hpt : ¬((t : String) = t0) := fun h => hne (h ▸ rfl)
      have hp0 : ¬(p.1 = t0) := fun h => hne ((h ▸ hp : (t0 : String) = t))
      rw [List.map_cons, if_pos hp,
          List.find?_cons_of_neg _ (by simpa using hpt),
          List.find?_cons_of_neg _ (by simpa using hp0)]
      exact ih
    · by_cases hq : p.1 = t0
      · rw [List.map_cons, if_neg hp,
            List.find?_cons_of_pos _ (by simpa using hq),
            List.find?_cons_of_pos _ (by simpa using hq)]
      · rw [List.map_cons, if_neg hp,
            List.find?_cons_of_neg _ (by simpa using hq),
            List.find?_cons_of_neg _ (by simpa using hq)]
        exact ih

theorem find?_append_left_some {α : Type} (l1 l2 : List α) (p : α → Bool)
    (x : α) (h : l1.find? p = some x) : (l1 ++ l2).find? p = some x := by
  induction l1 with
  | nil => simp at h
  | cons a l ih =>
    by_cases ha : p a
    · rw [List.find?_cons_of_pos _ ha] at h
      rw [List.cons_append, List.find?_cons_of_pos _ ha]
      exact h
    · rw [List.find?_cons_of_neg _ ha] at h
      rw [List.cons_append, List.find?_cons_of_neg _ ha]
      exact ih h

theorem lookupTable_setTable_self (db : DBState) (t : String) (T tbl : DBTable)
    (hl : lookupTable db t = some T) :
    lookupTable (setTable db t tbl) t = some tbl := by
  have h : (db.tables.find? (fun p => p.1 = t)).isSome = true := by
    unfold lookupTable at hl
    cases hf : db.tables.find? (fun p => p.1 = t) with
    | none => rw [hf] at hl; simp at hl
    | some x => rfl
  unfold lookupTable setTable
  rw [findT_set_self db.tables t tbl h]
  rfl

theorem lookupTable_setTable_other (db : DBState) (t t0 : String)
    (tbl : DBTable) (hne : t0 ≠ t) :
    lookupTable (setTable db t tbl) t0 = lookupTable db t0 := by
  unfold lookupTable setTable
  rw [findT_set_other db.tables t t0 tbl hne]

theorem lookupTable_append_new (db : DBState) (t t0 : String) (tbl : DBTable)
    (T : DBTable) (hl : lookupTable db t0 = some T) :
    lookupTable ⟨db.tables ++ [(t, tbl)]⟩ t0 = some T := by
  unfold lookupTable at *
  cases hf : db.tables.find? (fun p => p.1 = t0) with
  | none => rw [hf] at hl; simp at hl
  | some x =>
    rw [hf] at hl
    rw [show (⟨db.tables ++ [(t, tbl)]⟩ : DBState).tables
          = db.tables ++ [(t, tbl)] from rfl,
        find?_append_left_some db.tables [(t, tbl)] _ x hf]
    exact hl

theorem dbExecute_tr (q : Query) (st : IState) :
    (dbExecute q st).2.tr = st.tr ++ [Cmd.exec q] := by
  unfold dbExecute
  cases runQuery q st.db with
  | ok p => rfl
  | error e => rfl

theorem dbExecute_h (q : Query) (st : IState) :
    (dbExecute q st).2.h = st.h := by
  unfold dbExecute
  cases runQuery q st.db with
  | ok p => rfl
  | error e => rfl

/-- Trace delta of `__create_table`: at most one non-commit, non-alter
command. -/
theorem create_table_tr (st : IState) :
    ∃ d, (IndexedDB.create_table st).2.tr = st.tr ++ d
      ∧ d.count Cmd.commitCmd = 0 ∧ d.countP Cmd.isAlter = 0 := by
  unfold IndexedDB.create_table
  by_cases hc : st.h.table_created
  · exact ⟨[], by simp [hc]⟩
  · rw [if_neg hc]
    rcases hdb : dbExecute (Query.createTable st.h.table) st with ⟨r, s2⟩
    have h2 : s2.tr = st.tr ++ [Cmd.exec (Query.createTable st.h.table)] := by
      have h0 := dbExecute_tr (Query.createTable st.h.table) st
      rw [hdb] at h0
      exact h0
    refine ⟨[Cmd.exec (Query.createTable st.h.table)], ?_, by rfl, by rfl⟩
    cases r with
    | ok u => exact h2
    | error e => exact h2

/-- Trace delta of `__test_supports_jsonization`: no commit, no alter. -/
theorem test_supports_tr (st : IState) :
    ∃ d, (IndexedDB.test_supports_jsonization st).2.tr = st.tr ++ d
      ∧ d.count Cmd.commitCmd = 0 ∧ d.countP Cmd.isAlter = 0 := by
  unfold IndexedDB.test_supports_jsonization
  cases hm : st.h.supports_jsonization with
  | some b => exact ⟨[], by simp⟩
  | none =>
    dsimp only
    rcases hct : IndexedDB.create_table st with ⟨r1, s2⟩
    obtain ⟨d1, hd1, hc1, ha1⟩ := create_table_tr st
    rw [hct] at hd1
    cases r1 with
    | error e => exact ⟨d1, hd1, hc1, ha1⟩
    | ok u =>
      dsimp only
      rcases hdb : dbExecute (Query.tableInfo s2.h.table) s2 with ⟨r2, s3⟩
      have h3 : s3.tr
          = s2.tr ++ [Cmd.exec (Query.tableInfo s2.h.table)] := by
        have h0 := dbExecute_tr (Query.tableInfo s2.h.table) s2
        rw [hdb] at h0
        exact h0
      have htr : s3.tr
          = st.tr ++ (d1 ++ [Cmd.exec (Query.tableInfo s2.h.table)]) := by
        rw [h3, hd1, List.append_assoc]
      have hcnt : (d1 ++ [Cmd.exec (Query.tableInfo s2.h.table)]).count
          Cmd.commitCmd = 0 := by
        simp [List.count_append, hc1]
      have halt : (d1 ++ [Cmd.exec (Query.tableInfo s2.h.table)]).countP
          Cmd.isAlter = 0 := by
        simp [List.countP_append, ha1, Cmd.isAlter]
      refine ⟨d1 ++ [Cmd.exec (Query.tableInfo s2.h.table)], ?_, hcnt, halt⟩
      cases r2 with
      | error e => exact htr
      | ok rows =>
        dsimp only
        by_cases hrow : (rows.any
            (fun r => (r.getD 1 Val.vnull).asStr = "jsonized")) = true
        · rw [if_pos hrow]
          exact htr
        · rw [if_neg hrow]
          exact htr

/-- Trace delta of `__support_jsonization`: no commit. -/
theorem support_jsonization_tr (st : IState) :
    ∃ d, (IndexedDB.support_jsonization st).2.tr = st.tr ++ d
      ∧ d.count Cmd.commitCmd = 0 := by
  unfold IndexedDB.support_jsonization
  by_cases hm : st.h.supports_jsonization = some true
  · exact ⟨[], by simp [hm]⟩
  · rw [if_neg hm]
    rcases hts : IndexedDB.test_supports_jsonization st with ⟨r1, s2⟩
    obtain ⟨d1, hd1, hc1, _⟩ := test_supports_tr st
    rw [hts] at hd1
    cases r1 with
    | error e => exact ⟨d1, hd1, hc1⟩
    | ok b =>
      cases b with
      | true => exact ⟨d1, hd1, hc1⟩
      | false =>
        dsimp only
        rcases hdb : dbExecute (Query.alterAddJsonized s2.h.table) s2
          with ⟨r2, s3⟩
        have h3 : s3.tr
            = s2.tr ++ [Cmd.exec (Query.alterAddJsonized s2.h.table)] := by
          have h0 := dbExecute_tr (Query.alterAddJsonized s2.h.table) s2
          rw [hdb] at h0
          exact h0
        have htr : s3.tr
            = st.tr ++ (d1 ++ [Cmd.exec (Query.alterAddJsonized s2.h.table)]) := by
          rw [h3, hd1, List.append_assoc]
        refine ⟨d1 ++ [Cmd.exec (Query.alterAddJsonized s2.h.table)], ?_, ?_⟩
        · cases r2 with
          | error e => exact htr
          | ok u => exact htr
        · simp [List.count_append, hc1]

/-- Trace delta of `key_exists`: no commit, no alter. -/
theorem key_exists_tr (item : String) (st : IState) :
    ∃ d, (IndexedDB.key_exists item st).2.tr = st.tr ++ d
      ∧ d.count Cmd.commitCmd = 0 ∧ d.countP Cmd.isAlter = 0 := by
  unfold IndexedDB.key_exists
  rcases hct : IndexedDB.create_table st with ⟨r1, s2⟩
  obtain ⟨d1, hd1, hc1, ha1⟩ := create_table_tr st
  rw [hct] at hd1
  cases r1 with
  | error e => exact ⟨d1, hd1, hc1, ha1⟩
  | ok u =>
    dsimp only
    rcases hdb : dbExecute (Query.selectValue s2.h.table item false) s2
      with ⟨r2, s3⟩
    have h3 : s3.tr
        = s2.tr ++ [Cmd.exec (Query.selectValue s2.h.table item false)] := by
      have h0 := dbExecute_tr (Query.selectValue s2.h.table item false) s2
      rw [hdb] at h0
      exact h0
    have htr : s3.tr = st.tr
        ++ (d1 ++ [Cmd.exec (Query.selectValue s2.h.table item false)]) := by
      rw [h3, hd1, List.append_assoc]
    refine ⟨d1 ++ [Cmd.exec (Query.selectValue s2.h.table item false)],
      ?_, ?_, ?_⟩
    · cases r2 with
      | error e => exact htr
      | ok rows => exact htr
    · simp [List.count_append, hc1]
    · simp [List.countP_append, ha1, Cmd.isAlter]

/-- Trace delta of the triage block: no commit. -/
theorem setitem_triage_tr (v : PyVal) (st : IState) :
    ∃ d, (IndexedDB.setitem_triage v st).2.tr = st.tr ++ d
      ∧ d.count Cmd.commitCmd = 0 := by
  unfold IndexedDB.setitem_triage
  cases v with
  | pstr t => exact ⟨[], by simp⟩
  | pint n =>
    rcases hsj : IndexedDB.support_jsonization st with ⟨r1, s2⟩
    obtain ⟨d1, hd1, hc1⟩ := support_jsonization_tr st
    rw [hsj] at hd1
    cases r1 with
    | error e => exact ⟨d1, hd1, hc1⟩
    | ok u =>
      dsimp only
      cases json_dumps_py (.pint n) with
      | some txt => exact ⟨d1, hd1, hc1⟩
      | none => exact ⟨d1, hd1, hc1⟩
  | pbool b =>
    rcases hsj : IndexedDB.support_jsonization st with ⟨r1, s2⟩
    obtain ⟨d1, hd1, hc1⟩ := support_jsonization_tr st
    rw [hsj] at hd1
    cases r1 with
    | error e => exact ⟨d1, hd1, hc1⟩
    | ok u =>
      dsimp only
      cases json_dumps_py (.pbool b) with
      | some txt => exact ⟨d1, hd1, hc1⟩
      | none => exact ⟨d1, hd1, hc1⟩
  | pnone =>
    rcases hsj : IndexedDB.support_jsonization st with ⟨r1, s2⟩
    obtain ⟨d1, hd1, hc1⟩ := support_jsonization_tr st
    rw [hsj] at hd1
    cases r1 with
    | error e => exact ⟨d1, hd1, hc1⟩
    | ok u =>
      dsimp only
      cases json_dumps_py .pnone with
      | some txt => exact ⟨d1, hd1, hc1⟩
      | none => exact ⟨d1, hd1, hc1⟩
  | plist xs =>
    rcases hsj : IndexedDB.support_jsonization st with ⟨r1, s2⟩
    obtain ⟨d1, hd1, hc1⟩ := support_jsonization_tr st
    rw [hsj] at hd1
    cases r1 with
    | error e => exact ⟨d1, hd1, hc1⟩
    | ok u =>
      dsimp only
      cases json_dumps_py (.plist xs) with
      | some txt => exact ⟨d1, hd1, hc1⟩
      | none => exact ⟨d1, hd1, hc1⟩
  | ptuple xs =>
    rcases hsj : IndexedDB.support_jsonization st with ⟨r1, s2⟩
    obtain ⟨d1, hd1, hc1⟩ := support_jsonization_tr st
    rw [hsj] at hd1
    cases r1 with
    | error e => exact ⟨d1, hd1, hc1⟩
    | ok u =>
      dsimp only
      cases json_dumps_py (.ptuple xs) with
      | some txt => exact ⟨d1, hd1, hc1⟩
      | none => exact ⟨d1, hd1, hc1⟩
  | pdict kvs =>
    rcases hsj : IndexedDB.support_jsonization st with ⟨r1, s2⟩
    obtain ⟨d1, hd1, hc1⟩ := support_jsonization_tr st
    rw [hsj] at hd1
    cases r1 with
    | error e => exact ⟨d1, hd1, hc1⟩
    | ok u =>
      dsimp only
      cases json_dumps_py (.pdict kvs) with
      | some txt => exact ⟨d1, hd1, hc1⟩
      | none => exact ⟨d1, hd1, hc1⟩
  | pset ns =>
    rcases hsj : IndexedDB.support_jsonization st with ⟨r1, s2⟩
    obtain ⟨d1, hd1, hc1⟩ := support_jsonization_tr st
    rw [hsj] at hd1
    cases r1 with
    | error e => exact ⟨d1, hd1, hc1⟩
    | ok u =>
      dsimp only
      cases json_dumps_py (.pset ns) with
      | some txt => exact ⟨d1, hd1, hc1⟩
      | none => exact ⟨d1, hd1, hc1⟩

/-- A set call that returns successfully has issued exactly one commit
command beyond those already in the trace. -/
theorem setitem_commits (k : String) (v : PyVal) (st : IState)
    (hok : (IndexedDB.setitem k v st).1 = .ok ()) :
    (IndexedDB.setitem k v st).2.tr.count Cmd.commitCmd
      = st.tr.count Cmd.commitCmd + 1 := by
  unfold IndexedDB.setitem IndexedDB.setitem_write at hok ⊢
  rcases hct : IndexedDB.create_table st with ⟨r1, s1⟩
  rw [hct] at hok
  obtain ⟨d1, hd1, hc1, _⟩ := create_table_tr st
  rw [hct] at hd1
  cases r1 with
  | error e => simp at hok
  | ok u =>
    dsimp only at hok ⊢
    rcases htri : IndexedDB.setitem_triage v s1 with ⟨r2, s2⟩
    rw [htri] at hok
    obtain ⟨d2, hd2, hc2⟩ := setitem_triage_tr v s1
    rw [htri] at hd2
    cases r2 with
    | error e => simp at hok
    | ok p =>
      obtain ⟨txt, tag⟩ := p
      dsimp only at hok ⊢
      rcases hke : IndexedDB.key_exists k s2 with ⟨r3, s3⟩
      rw [hke] at hok
      obtain ⟨d3, hd3, hc3, _⟩ := key_exists_tr k s2
      rw [hke] at hd3
      cases r3 with
      | error e => simp at hok
      | ok b =>
        have hbase : s3.tr.count Cmd.commitCmd = st.tr.count Cmd.commitCmd := by
          rw [hd3, hd2, hd1]
          simp [List.count_append, hc1, hc2, hc3]
        cases b with
        | true =>
          dsimp only at hok ⊢
          rcases hts : IndexedDB.test_supports_jsonization s3 with ⟨r4, s4⟩
          rw [hts] at hok
          obtain ⟨d4, hd4, hc4, _⟩ := test_supports_tr s3
          rw [hts] at hd4
          cases r4 with
          | error e => simp at hok
          | ok js =>
            have hbase4 : s4.tr.count Cmd.commitCmd
                = st.tr.count Cmd.commitCmd := by
              rw [hd4]
              simp [List.count_append, hc4, hbase]
            dsimp only at hok ⊢
            cases js with
            | true =>
              rw [if_pos rfl] at hok ⊢
              rcases hup : dbExecute
                  (Query.updateRow s4.h.table k txt (some tag)) s4 with ⟨r5, s5⟩
              rw [hup] at hok
              have h5 : s5.tr = s4.tr
                  ++ [Cmd.exec (Query.updateRow s4.h.table k txt (some tag))] := by
                have h0 := dbExecute_tr
                  (Query.updateRow s4.h.table k txt (some tag)) s4
                rw [hup] at h0
                exact h0
              cases r5 with
              | error e => simp at hok
              | ok rows =>
                show ({ s5 with tr := s5.tr ++ [Cmd.commitCmd] } : IState).tr.count
                    Cmd.commitCmd = st.tr.count Cmd.commitCmd + 1
                simp [h5, List.count_append, hbase4]
            | false =>
              rw [if_neg (by simp)] at hok ⊢
              rcases hup : dbExecute
                  (Query.updateRow s4.h.table k txt none) s4 with ⟨r5, s5⟩
              rw [hup] at hok
              have h5 : s5.tr = s4.tr
                  ++ [Cmd.exec (Query.updateRow s4.h.table k txt none)] := by
                have h0 := dbExecute_tr
                  (Query.updateRow s4.h.table k txt none) s4
                rw [hup] at h0
                exact h0
              cases r5 with
              | error e => simp at hok
              | ok rows =>
                show ({ s5 with tr := s5.tr ++ [Cmd.commitCmd] } : IState).tr.count
                    Cmd.commitCmd = st.tr.count Cmd.commitCmd + 1
                simp [h5, List.count_append, hbase4]
        | false =>
          dsimp only at hok ⊢
          by_cases hsj : s3.h.supports_jsonization = some true
          · rw [if_pos hsj] at hok ⊢
            rcases hin : dbExecute
                (Query.insertRow s3.h.table k txt (some tag)) s3 with ⟨r5, s5⟩
            rw [hin] at hok
            have h5 : s5.tr = s3.tr
                ++ [Cmd.exec (Query.insertRow s3.h.table k txt (some tag))] := by
              have h0 := dbExecute_tr
                (Query.insertRow s3.h.table k txt (some tag)) s3
              rw [hin] at h0
              exact h0
            cases r5 with
            | error e => simp at hok
            | ok rows =>
              show ({ s5 with tr := s5.tr ++ [Cmd.commitCmd] } : IState).tr.count
                  Cmd.commitCmd = st.tr.count Cmd.commitCmd + 1
              simp [h5, List.count_append, hbase]
          · rw [if_neg hsj] at hok ⊢
            rcases hin : dbExecute
                (Query.insertRow s3.h.table k txt none) s3 with ⟨r5, s5⟩
            rw [hin] at hok
            have h5 : s5.tr = s3.tr
                ++ [Cmd.exec (Query.insertRow s3.h.table k txt none)] := by
              have h0 := dbExecute_tr
                (Query.insertRow s3.h.table k txt none) s3
              rw [hin] at h0
              exact h0
            cases r5 with
            | error e => simp at hok
            | ok rows =>
              show ({ s5 with tr := s5.tr ++ [Cmd.commitCmd] } : IState).tr.count
                  Cmd.commitCmd = st.tr.count Cmd.commitCmd + 1
              simp [h5, List.count_append, hbase]

/-- A delete call never issues a commit, whether or not it succeeds. -/
theorem delitem_no_commit (k : String) (st : IState) :
    (IndexedDB.delitem k st).2.tr.count Cmd.commitCmd
      = st.tr.count Cmd.commitCmd := by
  unfold IndexedDB.delitem
  rcases hct : IndexedDB.create_table st with ⟨r1, s1⟩
  obtain ⟨d1, hd1, hc1, _⟩ := create_table_tr st
  rw [hct] at hd1
  dsimp only at hd1
  cases r1 with
  | error e => simp [hd1, List.count_append, hc1]
  | ok u =>
    dsimp only
    rcases hdb : dbExecute (Query.deleteKey s1.h.table k) s1 with ⟨r2, s2⟩
    have h2 : s2.tr = s1.tr ++ [Cmd.exec (Query.deleteKey s1.h.table k)] := by
      have h0 := dbExecute_tr (Query.deleteKey s1.h.table k) s1
      rw [hdb] at h0
      exact h0
    cases r2 with
    | error e => simp [h2, hd1, List.count_append, hc1]
    | ok rows => simp [h2, hd1, List.count_append, hc1]

/-- Schema preservation: every table present before is present after,
with the same `jsonized`-column status. -/
def SchemaLE (db db2 : DBState) : Prop :=
  ∀ t T, lookupTable db t = some T →
    ∃ T2, lookupTable db2 t = some T2 ∧ T2.hasJsonized = T.hasJsonized

theorem SchemaLE.refl (db : DBState) : SchemaLE db db :=
  fun _ T h => ⟨T, h, rfl⟩

theorem SchemaLE.trans {a b c : DBState} (h1 : SchemaLE a b)
    (h2 : SchemaLE b c) : SchemaLE a c := by
  intro t T h
  obtain ⟨T2, hl2, he2⟩ := h1 t T h
  obtain ⟨T3, hl3, he3⟩ := h2 t T2 hl2
  exact ⟨T3, hl3, he3.trans he2⟩

theorem schemaLE_setTable (db : DBState) (t : String) (tbl : DBTable)
    (rows2 : List DBRow) (hl : lookupTable db t = some tbl) :
    SchemaLE db (setTable db t ⟨tbl.hasJsonized, rows2⟩) := by
  intro t0 T h0
  by_cases h : t0 = t
  · subst h
    have he : T = tbl := by
      rw [h0] at hl
      exact Option.some.inj hl
    exact ⟨⟨tbl.hasJsonized, rows2⟩,
      lookupTable_setTable_self db t0 T _ h0, by rw [he]⟩
  · rw [lookupTable_setTable_other db t t0 _ h]
    exact ⟨T, h0, rfl⟩

theorem schemaLE_append (db : DBState) (t : String) (tbl : DBTable) :
    SchemaLE db ⟨db.tables ++ [(t, tbl)]⟩ :=
  fun t0 T h0 => ⟨T, lookupTable_append_new db t t0 tbl T h0, rfl⟩

theorem schema_dbExecute_createTable (tq : String) (st : IState) :
    SchemaLE st.db (dbExecute (.createTable tq) st).2.db := by
  unfold dbExecute
  cases hrq : runQuery (.createTable tq) st.db with
  | error e => exact SchemaLE.refl _
  | ok p =>
    obtain ⟨rows, db2⟩ := p
    dsimp only
    unfold runQuery at hrq
    dsimp only at hrq
    cases hr : resolveIdent tq with
    | none => rw [hr] at hrq; simp at hrq
    | some t =>
      rw [hr] at hrq
      dsimp only at hrq
      cases hl : lookupTable st.db t with
      | some tbl =>
        rw [hl] at hrq
        dsimp only at hrq
        simp only [Except.ok.injEq, Prod.mk.injEq] at hrq
        rw [← hrq.2]
        exact SchemaLE.refl _
      | none =>
        rw [hl] at hrq
        dsimp only at hrq
        simp only [Except.ok.injEq, Prod.mk.injEq] at hrq
        rw [← hrq.2]
        exact schemaLE_append st.db t ⟨false, []⟩

theorem db_dbExecute_selectValue (tq k : String) (w : Bool) (st : IState) :
    (dbExecute (.selectValue tq k w) st).2.db = st.db := by
  unfold dbExecute
  cases hrq : runQuery (.selectValue tq k w) st.db with
  | error e => rfl
  | ok p =>
    obtain ⟨rows, db2⟩ := p
    dsimp only
    unfold runQuery at hrq
    dsimp only at hrq
    cases hr : resolveIdent tq with
    | none => rw [hr] at hrq; simp at hrq
    | some t =>
      rw [hr] at hrq
      dsimp only at hrq
      cases hl : lookupTable st.db t with
      | none => rw [hl] at hrq; simp at hrq
      | some tbl =>
        rw [hl] at hrq
        dsimp only at hrq
        by_cases hw : (w && !tbl.hasJsonized) = true
        · rw [if_pos hw] at hrq; simp at hrq
        · rw [if_neg hw] at hrq
          simp only [Except.ok.injEq, Prod.mk.injEq] at hrq
          exact hrq.2.symm

theorem db_dbExecute_tableInfo (tq : String) (st : IState) :
    (dbExecute (.tableInfo tq) st).2.db = st.db := by
  unfold dbExecute
  cases hrq : runQuery (.tableInfo tq) st.db with
  | error e => rfl
  | ok p =>
    obtain ⟨rows, db2⟩ := p
    dsimp only
    unfold runQuery at hrq
    dsimp only at hrq
    cases hr : resolveIdent tq with
    | none => rw [hr] at hrq; simp at hrq
    | some t =>
      rw [hr] at hrq
      dsimp only at hrq
      cases hl : lookupTable st.db t with
      | none =>
        rw [hl] at hrq
        dsimp only at hrq
        simp only [Except.ok.injEq, Prod.mk.injEq] at hrq
        exact hrq.2.symm
      | some tbl =>
        rw [hl] at hrq
        dsimp only at hrq
        simp only [Except.ok.injEq, Prod.mk.injEq] at hrq
        exact hrq.2.symm

theorem schema_dbExecute_insertRow (tq k txt : String) (tag : Option Int)
    (st : IState) :
    SchemaLE st.db (dbExecute (.insertRow tq k txt tag) st).2.db := by
  unfold dbExecute
  cases hrq : runQuery (.insertRow tq k txt tag) st.db with
  | error e => exact SchemaLE.refl _
  | ok p =>
    obtain ⟨rows, db2⟩ := p
    dsimp only
    unfold runQuery at hrq
    dsimp only at hrq
    cases hr : resolveIdent tq with
    | none => rw [hr] at hrq; simp at hrq
    | some t =>
      rw [hr] at hrq
      dsimp only at hrq
      cases hl : lookupTable st.db t with
      | none => rw [hl] at hrq; simp at hrq
      | some tbl =>
        rw [hl] at hrq
        dsimp only at hrq
        by_cases hw : (tag.isSome && !tbl.hasJsonized) = true
        · rw [if_pos hw] at hrq; simp at hrq
        · rw [if_neg hw] at hrq
          by_cases hdup : (tbl.rows.any (fun r => r.key = k)) = true
          · rw [if_pos hdup] at hrq; simp at hrq
          · rw [if_neg hdup] at hrq
            simp only [Except.ok.injEq, Prod.mk.injEq] at hrq
            rw [← hrq.2]
            exact schemaLE_setTable st.db t tbl _ hl

theorem schema_dbExecute_updateRow (tq k txt : String) (tag : Option Int)
    (st : IState) :
    SchemaLE st.db (dbExecute (.updateRow tq k txt tag) st).2.db := by
  unfold dbExecute
  cases hrq : runQuery (.updateRow tq k txt tag) st.db with
  | error e => exact SchemaLE.refl _
  | ok p =>
    obtain ⟨rows, db2⟩ := p
    dsimp only
    unfold runQuery at hrq
    dsimp only at hrq
    cases hr : resolveIdent tq with
    | none => rw [hr] at hrq; simp at hrq
    | some t =>
      rw [hr] at hrq
      dsimp only at hrq
      cases hl : lookupTable st.db t with
      | none => rw [hl] at hrq; simp at hrq
      | some tbl =>
        rw [hl] at hrq
        dsimp only at hrq
        by_cases hw : (tag.isSome && !tbl.hasJsonized) = true
        · rw [if_pos hw] at hrq; simp at hrq
        · rw [if_neg hw] at hrq
          simp only [Except.ok.injEq, Prod.mk.injEq] at hrq
          rw [← hrq.2]
          exact schemaLE_setTable st.db t tbl _ hl

theorem schema_create_table (st : IState) :
    SchemaLE st.db (IndexedDB.create_table st).2.db := by
  unfold IndexedDB.create_table
  by_cases hc : st.h.table_created
  · rw [if_pos hc]; exact SchemaLE.refl _
  · rw [if_neg hc]
    rcases hdb : dbExecute (Query.createTable st.h.table) st with ⟨r, s2⟩
    have h2 := schema_dbExecute_createTable st.h.table st
    rw [hdb] at h2
    cases r with
    | ok u => exact h2
    | error e => exact h2

theorem schema_test_supports (st : IState) :
    SchemaLE st.db (IndexedDB.test_supports_jsonization st).2.db := by
  unfold IndexedDB.test_supports_jsonization
  cases hm : st.h.supports_jsonization with
  | some b => exact SchemaLE.refl _
  | none =>
    dsimp only
    rcases hct : IndexedDB.create_table st with ⟨r1, s2⟩
    have hs1 := schema_create_table st
    rw [hct] at hs1
    cases r1 with
    | error e => exact hs1
    | ok u =>
      dsimp only
      rcases hdb : dbExecute (Query.tableInfo s2.h.table) s2 with ⟨r2, s3⟩
      have hs2 := db_dbExecute_tableInfo s2.h.table s2
      rw [hdb] at hs2
      have hs3 : SchemaLE st.db s3.db := by
        rw [show (r2, s3).2.db = s3.db from rfl] at hs2
        rw [hs2]
        exact hs1
      cases r2 with
      | error e => exact hs3
      | ok rows =>
        dsimp only
        by_cases hrow : (rows.any
            (fun r => (r.getD 1 Val.vnull).asStr = "jsonized")) = true
        · rw [if_pos hrow]; exact hs3
        · rw [if_neg hrow]; exact hs3

theorem schema_key_exists (item : String) (st : IState) :
    SchemaLE st.db (IndexedDB.key_exists item st).2.db := by
  unfold IndexedDB.key_exists
  rcases hct : IndexedDB.create_table st with ⟨r1, s2⟩
  have hs1 := schema_create_table st
  rw [hct] at hs1
  cases r1 with
  | error e => exact hs1
  | ok u =>
    dsimp only
    rcases hdb : dbExecute (Query.selectValue s2.h.table item false) s2
      with ⟨r2, s3⟩
    have hs2 := db_dbExecute_selectValue s2.h.table item false s2
    rw [hdb] at hs2
    have hs3 : SchemaLE st.db s3.db := by
      rw [show (r2, s3).2.db = s3.db from rfl] at hs2
      rw [hs2]
      exact hs1
    cases r2 with
    | error e => exact hs3
    | ok rows => exact hs3

/-- Setting a plain string value preserves the schema of every existing
table (in particular it never adds the `jsonized` column) and issues no
ALTER TABLE command, on every path including error paths. -/
theorem setitem_str_schema (k s : String) (st : IState) :
    SchemaLE st.db (IndexedDB.setitem k (.pstr s) st).2.db
    ∧ (IndexedDB.setitem k (.pstr s) st).2.tr.countP Cmd.isAlter
        = st.tr.countP Cmd.isAlter := by
  unfold IndexedDB.setitem IndexedDB.setitem_write
  rcases hct : IndexedDB.create_table st with ⟨r1, s1⟩
  have hsc1 := schema_create_table st
  rw [hct] at hsc1
  obtain ⟨d1, hd1, _, ha1⟩ := create_table_tr st
  rw [hct] at hd1
  dsimp only at hd1 hsc1
  cases r1 with
  | error e => exact ⟨hsc1, by simp [hd1, List.countP_append, ha1]⟩
  | ok u =>
    dsimp only
    rw [show IndexedDB.setitem_triage (.pstr s) s1
          = (.ok (s, (0 : Int)), s1) from rfl]
    dsimp only
    rcases hke : IndexedDB.key_exists k s1 with ⟨r3, s3⟩
    have hsc3 := schema_key_exists k s1
    rw [hke] at hsc3
    obtain ⟨d3, hd3, _, ha3⟩ := key_exists_tr k s1
    rw [hke] at hd3
    dsimp only at hd3 hsc3
    have hsc03 : SchemaLE st.db s3.db := hsc1.trans hsc3
    have htr3 : s3.tr.countP Cmd.isAlter = st.tr.countP Cmd.isAlter := by
      simp [hd3, hd1, List.countP_append, ha1, ha3]
    cases r3 with
    | error e => exact ⟨hsc03, htr3⟩
    | ok b =>
      cases b with
      | true =>
        dsimp only
        rcases hts : IndexedDB.test_supports_jsonization s3 with ⟨r4, s4⟩
        have hsc4 := schema_test_supports s3
        rw [hts] at hsc4
        obtain ⟨d4, hd4, _, ha4⟩ := test_supports_tr s3
        rw [hts] at hd4
        dsimp only at hd4 hsc4
        have hsc04 : SchemaLE st.db s4.db := hsc03.trans hsc4
        have htr4 : s4.tr.countP Cmd.isAlter = st.tr.countP Cmd.isAlter := by
          simp [hd4, List.countP_append, ha4, htr3]
        cases r4 with
        | error e => exact ⟨hsc04, htr4⟩
        | ok js =>
          dsimp only
          cases js with
          | true =>
            rw [if_pos rfl]
            rcases hup : dbExecute (Query.updateRow s4.h.table k s (some 0)) s4
              with ⟨r5, s5⟩
            have hsc5 := schema_dbExecute_updateRow s4.h.table k s (some 0) s4
            rw [hup] at hsc5
            have h5 := dbExecute_tr (Query.updateRow s4.h.table k s (some 0)) s4
            rw [hup] at h5
            dsimp only at h5 hsc5
            have hsc05 : SchemaLE st.db s5.db := hsc04.trans hsc5
            have htr5 : s5.tr.countP Cmd.isAlter
                = st.tr.countP Cmd.isAlter := by
              simp [h5, List.countP_append, htr4, Cmd.isAlter]
            cases r5 with
            | error e => exact ⟨hsc05, htr5⟩
            | ok rows =>
              refine ⟨hsc05, ?_⟩
              show ({ s5 with tr := s5.tr ++ [Cmd.commitCmd] } : IState).tr.countP
                  Cmd.isAlter = st.tr.countP Cmd.isAlter
              simp [List.countP_append, htr5, Cmd.isAlter]
          | false =>
            rw [if_neg (by simp)]
            rcases hup : dbExecute (Query.updateRow s4.h.table k s none) s4
              with ⟨r5, s5⟩
            have hsc5 := schema_dbExecute_updateRow s4.h.table k s none s4
            rw [hup] at hsc5
            have h5 := dbExecute_tr (Query.updateRow s4.h.table k s none) s4
            rw [hup] at h5
            dsimp only at h5 hsc5
            have hsc05 : SchemaLE st.db s5.db := hsc04.trans hsc5
            have htr5 : s5.tr.countP Cmd.isAlter
                = st.tr.countP Cmd.isAlter := by
              simp [h5, List.countP_append, htr4, Cmd.isAlter]
            cases r5 with
            | error e => exact ⟨hsc05, htr5⟩
            | ok rows =>
              refine ⟨hsc05, ?_⟩
              show ({ s5 with tr := s5.tr ++ [Cmd.commitCmd] } : IState).tr.countP
                  Cmd.isAlter = st.tr.countP Cmd.isAlter
              simp [List.countP_append, htr5, Cmd.isAlter]
      | false =>
        dsimp only
        by_cases hsj : s3.h.supports_jsonization = some true
        · rw [if_pos hsj]
          rcases hin : dbExecute (Query.insertRow s3.h.table k s (some 0)) s3
            with ⟨r5, s5⟩
          have hsc5 := schema_dbExecute_insertRow s3.h.table k s (some 0) s3
          rw [hin] at hsc5
          have h5 := dbExecute_tr (Query.insertRow s3.h.table k s (some 0)) s3
          rw [hin] at h5
          dsimp only at h5 hsc5
          have hsc05 : SchemaLE st.db s5.db := hsc03.trans hsc5
          have htr5 : s5.tr.countP Cmd.isAlter = st.tr.countP Cmd.isAlter := by
            simp [h5, List.countP_append, htr3, Cmd.isAlter]
          cases r5 with
          | error e => exact ⟨hsc05, htr5⟩
          | ok rows =>
            refine ⟨hsc05, ?_⟩
            show ({ s5 with tr := s5.tr ++ [Cmd.commitCmd] } : IState).tr.countP
                Cmd.isAlter = st.tr.countP Cmd.isAlter
            simp [List.countP_append, htr5, Cmd.isAlter]
        · rw [if_neg hsj]
          rcases hin : dbExecute (Query.insertRow s3.h.table k s none) s3
            with ⟨r5, s5⟩
          have hsc5 := schema_dbExecute_insertRow s3.h.table k s none s3
          rw [hin] at hsc5
          have h5 := dbExecute_tr (Query.insertRow s3.h.table k s none) s3
          rw [hin] at h5
          dsimp only at h5 hsc5
          have hsc05 : SchemaLE st.db s5.db := hsc03.trans hsc5
          have htr5 : s5.tr.countP Cmd.isAlter = st.tr.countP Cmd.isAlter := by
            simp [h5, List.countP_append, htr3, Cmd.isAlter]
          cases r5 with
          | error e => exact ⟨hsc05, htr5⟩
          | ok rows =>
            refine ⟨hsc05, ?_⟩
            show ({ s5 with tr := s5.tr ++ [Cmd.commitCmd] } : IState).tr.countP
                Cmd.isAlter = st.tr.countP Cmd.isAlter
            simp [List.countP_append, htr5, Cmd.isAlter]

/-! ## Claim C3 -/

/-- State for the C3 counterexample: one namespace table holding one row,
and a handle that has already created the table. -/
def c3State : IState :=
  ⟨⟨quotedTable "ns", true, none⟩,
   ⟨[(physTable "ns", ⟨false, [⟨"k", "v", 0⟩]⟩)]⟩, []⟩

/-- Claim C3 counterexample: a delete call on an existing key returns
successfully yet issues no commit command at all — only the DELETE — so
deletes are not committed independently as the claim states. -/
theorem delete_without_commit_cex :
    (IndexedDB.delitem "k" c3State).1 = .ok ()
    ∧ (IndexedDB.delitem "k" c3State).2.tr
        = [Cmd.exec (Query.deleteKey (quotedTable "ns") "k")]
    ∧ Cmd.commitCmd ∉ (IndexedDB.delitem "k" c3State).2.tr := by
  refine ⟨rfl, rfl, ?_⟩
  decide

/-- Claim C3 (amended): every successful set issues exactly one commit of
its own before returning, but a delete never issues a commit (deletions
are flushed only by a later commit or by the worker's final commit at
shutdown). -/
theorem set_commits_delete_does_not :
    (∀ (st : IState) (k : String) (v : PyVal),
       (IndexedDB.setitem k v st).1 = .ok () →
       (IndexedDB.setitem k v st).2.tr.count Cmd.commitCmd
         = st.tr.count Cmd.commitCmd + 1)
    ∧ (∀ (st : IState) (k : String),
       (IndexedDB.delitem k st).2.tr.count Cmd.commitCmd
         = st.tr.count Cmd.commitCmd) :=
  ⟨fun st k v h => setitem_commits k v st h,
   fun st k => delitem_no_commit k st⟩

/-- Witness for the amended C3 theorem at a concrete input. -/
theorem set_commits_delete_does_not_witness :
    (IndexedDB.setitem "k" (.pstr "v")
        (⟨newHandle "ns", emptyDB, []⟩ : IState)).1 = .ok ()
    ∧ (IndexedDB.setitem "k" (.pstr "v")
        (⟨newHandle "ns", emptyDB, []⟩ : IState)).2.tr.count Cmd.commitCmd
        = (⟨newHandle "ns", emptyDB, []⟩ : IState).tr.count Cmd.commitCmd + 1 :=
  ⟨rfl, set_commits_delete_does_not.1 ⟨newHandle "ns", emptyDB, []⟩ "k"
    (.pstr "v") rfl⟩

/-! ## Claim C4 -/

/-- Claim C4 counterexample: two Quit commands produce exactly one
response.  The worker answers the first Quit with `Ack(true)` and exits
its loop; the second Quit is never serviced, so the second `quit()` call
never receives the `Ack(true)` the claim promises (it blocks on the
response queue forever). -/
theorem quit_twice_second_call_unanswered :
    thread_db_connection emptyDB [DBCommand.quitC, DBCommand.quitC]
      = [DBRespond.ack true]
    ∧ thread_db_connection emptyDB [DBCommand.quitC, DBCommand.quitC]
      ≠ [DBRespond.ack true, DBRespond.ack true] :=
  ⟨rfl, by decide⟩

/-- Claim C4 (amended): the first Quit reaching the running worker always
yields `Ack(true)` and stops the loop; every command queued behind it —
including a second Quit — is never serviced and gets no response. -/
theorem quit_ack_then_stop (db : DBState) (rest : List DBCommand) :
    thread_db_connection db (DBCommand.quitC :: rest)
      = [DBRespond.ack true] := rfl

/-! ## Claim C7 -/

/-- Claim C7: if a namespace table exists without the `jsonized` column,
setting a plain string value does not trigger the ALTER-TABLE migration:
the table still has no `jsonized` column afterwards and no ALTER command
is ever issued by the call. -/
theorem set_string_no_migration (st : IState) (t k s : String) (T : DBTable)
    (hl : lookupTable st.db t = some T)
    (hj : T.hasJsonized = false) :
    ∃ T2, lookupTable (IndexedDB.setitem k (.pstr s) st).2.db t = some T2
      ∧ T2.hasJsonized = false
      ∧ (IndexedDB.setitem k (.pstr s) st).2.tr.countP Cmd.isAlter
          = st.tr.countP Cmd.isAlter := by
  obtain ⟨hs, ht⟩ := setitem_str_schema k s st
  obtain ⟨T2, hl2, he2⟩ := hs t T hl
  exact ⟨T2, hl2, by rw [he2, hj], ht⟩

/-- Witness for the C7 theorem at a concrete input. -/
theorem set_string_no_migration_witness :
    lookupTable (⟨⟨quotedTable "ns", true, none⟩,
        ⟨[(physTable "ns", ⟨false, []⟩)]⟩, []⟩ : IState).db (physTable "ns")
      = some ⟨false, []⟩
    ∧ ∃ T2, lookupTable (IndexedDB.setitem "k" (.pstr "v")
        (⟨⟨quotedTable "ns", true, none⟩,
          ⟨[(physTable "ns", ⟨false, []⟩)]⟩, []⟩ : IState)).2.db (physTable "ns")
        = some T2
      ∧ T2.hasJsonized = false
      ∧ (IndexedDB.setitem "k" (.pstr "v")
          (⟨⟨quotedTable "ns", true, none⟩,
            ⟨[(physTable "ns", ⟨false, []⟩)]⟩, []⟩ : IState)).2.tr.countP
          Cmd.isAlter
        = (⟨⟨quotedTable "ns", true, none⟩,
            ⟨[(physTable "ns", ⟨false, []⟩)]⟩, []⟩ : IState).tr.countP
            Cmd.isAlter :=
  ⟨rfl, set_string_no_migration _ (physTable "ns") "k" "v" ⟨false, []⟩ rfl rfl⟩

/-! ## Claim C5 -/

/-- Manager state after storing one value under namespace `ns`. -/
def c5AfterSet : MgrState :=
  (IndexedDBManager.withStore "ns" 0
    (IndexedDB.setitem "k" (.pstr "v")) emptyMgr).2

/-- Manager state after then deleting the namespace through the manager. -/
def c5AfterDel : MgrState := (IndexedDBManager.delitem "ns" 0 c5AfterSet).2

/-- Claim C5: after `del manager[name]` the membership test is indeed
false, but re-accessing `manager[name]` does not yield a fresh working
store: `__delitem__` leaves the mutated handle (with its table-creation
memo still set) in the cache, so the table is never re-created and every
subsequent operation fails with a missing-table engine error. -/
theorem delete_namespace_stale_handle :
    (IndexedDBManager.withStore "ns" 0
        (IndexedDB.setitem "k" (.pstr "v")) emptyMgr).1 = .ok ()
    ∧ (IndexedDBManager.delitem "ns" 0 c5AfterSet).1 = .ok ()
    ∧ (IndexedDBManager.contains "ns" c5AfterDel).1 = .ok false
    ∧ (IndexedDBManager.withStore "ns" 0
        (IndexedDB.setitem "k2" (.pstr "w")) c5AfterDel).1
        = .error .noSuchTable
    ∧ (IndexedDBManager.withStore "ns" 0 IndexedDB.keys c5AfterDel).1
        = .error .noSuchTable
    ∧ (c5AfterDel.cache.find? (fun p => p.1 = "ns")).map
        (fun p => p.2.table_created) = some true :=
  ⟨rfl, rfl, rfl, rfl, rfl, rfl⟩

/-! ## Claim C6 -/

/-- Distinct namespace names for the cache-bound scenario. -/
def nsName (i : Nat) : String := "ns" ++ toString i

/-- Access a list of namespaces in order through the manager. -/
def accessAll (names : List String) (m : MgrState) : MgrState :=
  names.foldl (fun acc nm => (IndexedDBManager.getitem nm 0 acc).2) m

set_option maxRecDepth 8192 in
/-- Claim C6 counterexample: accessing 129 distinct namespaces from a
fresh manager evicts nothing — the eviction guard is `len > 128`, so the
129th access (cache size 128) does not evict and the cache grows to 129
entries, not the 128 the claim's bound requires. -/
theorem cache_129th_access_no_eviction :
    ((List.range 129).map nsName).Nodup
    ∧ (accessAll ((List.range 129).map nsName) emptyMgr).cache.length = 129
    ∧ (accessAll ((List.range 129).map nsName) emptyMgr).cache.length ≠ 128 := by
  refine ⟨by decide, by rfl, by decide⟩

/-- Claim C6 (amended): the cache tops out at 129 entries: an access to a
new namespace while the cache holds 129 entries first evicts exactly one
cached handle (the size returns to 129, one old entry replaced by the new
one), and eviction touches neither the engine state nor the command
trace, so persisted rows are unaffected. -/
theorem cache_evicts_at_130th_access (st : MgrState) (item : String)
    (pick : Nat) (hlen : st.cache.length = 129)
    (hnew : st.cache.any (fun p => p.1 = item) = false) :
    (IndexedDBManager.getitem item pick st).2.cache.length = 129
    ∧ (IndexedDBManager.getitem item pick st).2.db = st.db
    ∧ (IndexedDBManager.getitem item pick st).2.tr = st.tr
    ∧ (IndexedDBManager.getitem item pick st).2.cache.any
        (fun p => p.1 = item) = true := by
  unfold IndexedDBManager.getitem
  have hgt : st.cache.length > 128 := by rw [hlen]; decide
  rw [if_pos hgt]
  have hidx : pick % st.cache.length < st.cache.length := by
    rw [hlen]; exact Nat.mod_lt _ (by decide)
  have hlen1 : (st.cache.eraseIdx (pick % st.cache.length)).length = 128 := by
    rw [List.length_eraseIdx_of_lt hidx, hlen]
  have hsub : (st.cache.eraseIdx (pick % st.cache.length)).Sublist st.cache :=
    List.eraseIdx_sublist st.cache (pick % st.cache.length)
  have hnew1 : (st.cache.eraseIdx (pick % st.cache.length)).any
      (fun p => p.1 = item) = false := by
    rw [List.any_eq_false] at hnew ⊢
    exact fun p hp => hnew p (hsub.subset hp)
  refine ⟨?_, ?_, ?_, ?_⟩ <;> simp [hnew1, hlen1, newHandle]

set_option maxRecDepth 8192 in
/-- Witness for the amended C6 theorem: a concrete manager state with 129
cached handles and a fresh 130th namespace. -/
theorem cache_evicts_at_130th_access_witness :
    ((⟨(List.range 129).map (fun i => (nsName i, newHandle (nsName i))),
        emptyDB, []⟩ : MgrState)).cache.length = 129
    ∧ (IndexedDBManager.getitem "extra" 7
        ⟨(List.range 129).map (fun i => (nsName i, newHandle (nsName i))),
          emptyDB, []⟩).2.cache.length = 129 := by
  refine ⟨by rfl, ?_⟩
  exact (cache_evicts_at_130th_access
    ⟨(List.range 129).map (fun i => (nsName i, newHandle (nsName i))),
      emptyDB, []⟩ "extra" 7 (by rfl) (by decide)).1

/-! ## Claim C9 -/

/-- Manager state after storing a value under a namespace whose name
contains a backtick. -/
def c9AfterSet : MgrState :=
  (IndexedDBManager.withStore "a`b" 0
    (IndexedDB.setitem "k" (.pstr "v")) emptyMgr).2

/-- Claim C9 counterexample: for the backtick-containing namespace name,
storing data succeeds, `keys()` enumerates exactly the original name (the
identifier-escaping is undone by the engine's parser, so the physical
table is named with a single backtick), and membership is true — contrary
to the claim that the enumerated name differs and membership is false. -/
theorem backtick_name_roundtrip_cex :
    (IndexedDBManager.withStore "a`b" 0
        (IndexedDB.setitem "k" (.pstr "v")) emptyMgr).1 = .ok ()
    ∧ (IndexedDBManager.keys c9AfterSet).1 = .ok ["a`b"]
    ∧ (IndexedDBManager.contains "a`b" c9AfterSet).1 = .ok true :=
  ⟨rfl, rfl, rfl⟩

/-- Claim C9 (amended): for every namespace name — backticks included —
once the namespace's physical table `db_<name>` exists, the manager's
membership test returns true: the doubled backticks in the quoted
identifier are consumed by the SQL parser, and `keys()` recovers exactly
the original name by stripping the 3-character prefix. -/
theorem backtick_name_membership (m : MgrState) (name : String) (T : DBTable)
    (hl : lookupTable m.db (physTable name) = some T) :
    (IndexedDBManager.contains name m).1 = .ok true := by
  unfold lookupTable at hl
  have hname : name ∈ (m.db.tables.filterMap (fun p =>
      if likeDbPat p.1.data then some [Val.vs p.1] else none)).map
        (fun r => strDrop (r.getD 0 Val.vnull).asStr 3) := by
    cases hf : m.db.tables.find? (fun p => p.1 = physTable name) with
    | none => rw [hf] at hl; simp at hl
    | some p =>
      have hmem : p ∈ m.db.tables := List.mem_of_find?_eq_some hf
      have hkey : p.1 = physTable name := by
        have h0 := List.find?_some hf
        simpa using h0
      refine List.mem_map.mpr ⟨[Val.vs p.1],
        List.mem_filterMap.mpr ⟨p, hmem, ?_⟩, ?_⟩
      · rw [hkey]
        rfl
      · rw [hkey]
        rfl
  unfold IndexedDBManager.contains IndexedDBManager.keys
  rw [show runQuery .listTables m.db
        = .ok (m.db.tables.filterMap (fun p =>
            if likeDbPat p.1.data then some [Val.vs p.1] else none), m.db)
      from rfl]
  dsimp only
  rw [decide_eq_true hname]

/-- Witness for the amended C9 theorem at a backtick-containing name. -/
theorem backtick_name_membership_witness :
    lookupTable (⟨[], ⟨[(physTable "a`b", ⟨false, []⟩)]⟩, []⟩ : MgrState).db
        (physTable "a`b") = some ⟨false, []⟩
    ∧ (IndexedDBManager.contains "a`b"
        ⟨[], ⟨[(physTable "a`b", ⟨false, []⟩)]⟩, []⟩).1 = .ok true :=
  ⟨rfl, backtick_name_membership _ "a`b" ⟨false, []⟩ rfl⟩

/-! ## Pointwise interpreter equations at a namespace table

These rewrite each statement the key-value layer issues, given the
relevant lookup facts, and are the building blocks of the round-trip
proofs. -/

theorem runQuery_createTable_present (nm : String) (db : DBState)
    (T : DBTable) (hl : lookupTable db (physTable nm) = some T) :
    runQuery (.createTable (quotedTable nm)) db = .ok ([], db) := by
  unfold runQuery
  dsimp only
  rw [resolveIdent_quotedTable]
  dsimp only
  rw [hl]

theorem runQuery_createTable_absent (nm : String) (db : DBState)
    (hl : lookupTable db (physTable nm) = none) :
    runQuery (.createTable (quotedTable nm)) db
      = .ok ([], ⟨db.tables ++ [(physTable nm, ⟨false, []⟩)]⟩) := by
  unfold runQuery
  dsimp only
  rw [resolveIdent_quotedTable]
  dsimp only
  rw [hl]

theorem runQuery_select_noJson (nm k : String) (db : DBState) (T : DBTable)
    (hl : lookupTable db (physTable nm) = some T) :
    runQuery (.selectValue (quotedTable nm) k false) db
      = .ok ((rowsFor T k).map (fun r => [Val.vs r.value]), db) := by
  unfold runQuery
  dsimp only
  rw [resolveIdent_quotedTable]
  dsimp only
  rw [hl]
  rfl

theorem runQuery_select_json (nm k : String) (db : DBState) (T : DBTable)
    (hl : lookupTable db (physTable nm) = some T)
    (hj : T.hasJsonized = true) :
    runQuery (.selectValue (quotedTable nm) k true) db
      = .ok ((rowsFor T k).map
          (fun r => [Val.vs r.value, Val.vi r.jsonized]), db) := by
  unfold runQuery
  dsimp only
  rw [resolveIdent_quotedTable]
  dsimp only
  rw [hl]
  simp [hj, rowsFor]

theorem runQuery_insert_noTag (nm k v : String) (db : DBState) (T : DBTable)
    (hl : lookupTable db (physTable nm) = some T)
    (hnd : (T.rows.any (fun r => r.key = k)) = false) :
    runQuery (.insertRow (quotedTable nm) k v none) db
      = .ok ([], setTable db (physTable nm)
          ⟨T.hasJsonized, T.rows ++ [⟨k, v, 0⟩]⟩) := by
  unfold runQuery
  dsimp only
  rw [resolveIdent_quotedTable]
  dsimp only
  rw [hl]
  simp [hnd]

theorem runQuery_insert_tag (nm k v : String) (tg : Int) (db : DBState)
    (T : DBTable) (hl : lookupTable db (physTable nm) = some T)
    (hj : T.hasJsonized = true)
    (hnd : (T.rows.any (fun r => r.key = k)) = false) :
    runQuery (.insertRow (quotedTable nm) k v (some tg)) db
      = .ok ([], setTable db (physTable nm) ⟨true, T.rows ++ [⟨k, v, tg⟩]⟩) := by
  unfold runQuery
  dsimp only
  rw [resolveIdent_quotedTable]
  dsimp only
  rw [hl]
  simp [hj, hnd]

theorem runQuery_update_noTag (nm k v : String) (db : DBState) (T : DBTable)
    (hl : lookupTable db (physTable nm) = some T) :
    runQuery (.updateRow (quotedTable nm) k v none) db
      = .ok ([], setTable db (physTable nm)
          ⟨T.hasJsonized, T.rows.map (fun r =>
            if r.key = k then ⟨r.key, v, r.jsonized⟩ else r)⟩) := by
  unfold runQuery
  dsimp only
  rw [resolveIdent_quotedTable]
  dsimp only
  rw [hl]
  rfl

theorem runQuery_update_tag (nm k v : String) (tg : Int) (db : DBState)
    (T : DBTable) (hl : lookupTable db (physTable nm) = some T)
    (hj : T.hasJsonized = true) :
    runQuery (.updateRow (quotedTable nm) k v (some tg)) db
      = .ok ([], setTable db (physTable nm) ⟨true, T.rows.map (fun r =>
          if r.key = k then ⟨r.key, v, tg⟩ else r)⟩) := by
  unfold runQuery
  dsimp only
  rw [resolveIdent_quotedTable]
  dsimp only
  rw [hl]
  simp [hj]

theorem runQuery_tableInfo_present (nm : String) (db : DBState) (T : DBTable)
    (hl : lookupTable db (physTable nm) = some T) :
    runQuery (.tableInfo (quotedTable nm)) db = .ok (tableInfoRows T, db) := by
  unfold runQuery
  dsimp only
  rw [resolveIdent_quotedTable]
  dsimp only
  rw [hl]

theorem runQuery_alter (nm : String) (db : DBState) (T : DBTable)
    (hl : lookupTable db (physTable nm) = some T)
    (hj : T.hasJsonized = false) :
    runQuery (.alterAddJsonized (quotedTable nm)) db
      = .ok ([], setTable db (physTable nm) ⟨true, T.rows⟩) := by
  unfold runQuery
  dsimp only
  rw [resolveIdent_quotedTable]
  dsimp only
  rw [hl]
  simp [hj]

/-- The probe condition of `__test_supports_jsonization` evaluated on the
`table_info` rows is exactly the presence of the column. -/
theorem tableInfoRows_probe (T : DBTable) :
    ((tableInfoRows T).any
      (fun r => (r.getD 1 Val.vnull).asStr = "jsonized")) = T.hasJsonized := by
  rcases T with ⟨hj, rows⟩
  cases hj <;> rfl

/-- `__create_table` on a handle whose table already exists: no engine
state change, the creation memo is set (the trace may gain the CREATE
statement when the memo was not yet set). -/
theorem create_table_present (nm : String) (fl : Bool) (mm : Option Bool)
    (db0 : DBState) (tr0 : List Cmd) (T : DBTable)
    (hl : lookupTable db0 (physTable nm) = some T) :
    ∃ tr1, IndexedDB.create_table ⟨⟨quotedTable nm, fl, mm⟩, db0, tr0⟩
      = (.ok (), ⟨⟨quotedTable nm, true, mm⟩, db0, tr1⟩) := by
  cases fl with
  | true => exact ⟨tr0, rfl⟩
  | false =>
    refine ⟨tr0 ++ [Cmd.exec (Query.createTable (quotedTable nm))], ?_⟩
    unfold IndexedDB.create_table dbExecute
    rw [show (⟨⟨quotedTable nm, false, mm⟩, db0, tr0⟩ : IState).h.table_created
          = false from rfl]
    rw [show (⟨⟨quotedTable nm, false, mm⟩, db0, tr0⟩ : IState).h.table
          = quotedTable nm from rfl]
    rw [show (⟨⟨quotedTable nm, false, mm⟩, db0, tr0⟩ : IState).db
          = db0 from rfl]
    rw [runQuery_createTable_present nm db0 T hl]
    rfl

/-- `__create_table` on a fresh handle over a database without the table:
the empty table is created. -/
theorem create_table_absent (nm : String) (mm : Option Bool)
    (db0 : DBState) (tr0 : List Cmd)
    (hl : lookupTable db0 (physTable nm) = none) :
    IndexedDB.create_table ⟨⟨quotedTable nm, false, mm⟩, db0, tr0⟩
      = (.ok (), ⟨⟨quotedTable nm, true, mm⟩,
          ⟨db0.tables ++ [(physTable nm, ⟨false, []⟩)]⟩,
          tr0 ++ [Cmd.exec (Query.createTable (quotedTable nm))]⟩) := by
  unfold IndexedDB.create_table dbExecute
  rw [show (⟨⟨quotedTable nm, false, mm⟩, db0, tr0⟩ : IState).h.table_created
        = false from rfl]
  rw [show (⟨⟨quotedTable nm, false, mm⟩, db0, tr0⟩ : IState).h.table
        = quotedTable nm from rfl]
  rw [show (⟨⟨quotedTable nm, false, mm⟩, db0, tr0⟩ : IState).db
        = db0 from rfl]
  rw [runQuery_createTable_absent nm db0 hl]
  rfl

theorem rowsFor_append_hit (hj : Bool) (rows : List DBRow) (k v : String)
    (j : Int) :
    rowsFor ⟨hj, rows ++ [⟨k, v, j⟩]⟩ k
      = rowsFor ⟨hj, rows⟩ k ++ [⟨k, v, j⟩] := by
  unfold rowsFor
  rw [List.filter_append]
  simp

theorem rowsFor_map_update (T : DBTable) (hj2 : Bool) (k v : String)
    (j : Int) :
    rowsFor ⟨hj2, T.rows.map (fun r =>
        if r.key = k then (⟨r.key, v, j⟩ : DBRow) else r)⟩ k
      = (rowsFor T k).map (fun r =>
          if r.key = k then (⟨r.key, v, j⟩ : DBRow) else r) := by
  unfold rowsFor
  rw [List.filter_map]
  have hp : ((fun r => decide (r.key = k)) ∘ (fun r =>
      if r.key = k then (⟨r.key, v, j⟩ : DBRow) else r))
      = (fun r => decide (r.key = k)) := by
    funext r
    by_cases hr : r.key = k <;> simp [hr]
  rw [hp]

theorem rowsFor_map_update_noTag (T : DBTable) (hj2 : Bool) (k v : String) :
    rowsFor ⟨hj2, T.rows.map (fun r =>
        if r.key = k then (⟨r.key, v, r.jsonized⟩ : DBRow) else r)⟩ k
      = (rowsFor T k).map (fun r =>
          if r.key = k then (⟨r.key, v, r.jsonized⟩ : DBRow) else r) := by
  unfold rowsFor
  rw [List.filter_map]
  have hp : ((fun r => decide (r.key = k)) ∘ (fun r =>
      if r.key = k then (⟨r.key, v, r.jsonized⟩ : DBRow) else r))
      = (fun r => decide (r.key = k)) := by
    funext r
    by_cases hr : r.key = k <;> simp [hr]
  rw [hp]

theorem rowsFor_head_key (T : DBTable) (k : String) (r0 : DBRow)
    (rest : List DBRow) (hex : rowsFor T k = r0 :: rest) : r0.key = k := by
  have hmem : r0 ∈ rowsFor T k := by rw [hex]; exact List.mem_cons_self _ _
  unfold rowsFor at hmem
  have h2 := (List.mem_filter.mp hmem).2
  simpa using h2

theorem rowsFor_any (T : DBTable) (k : String) :
    (T.rows.any (fun r => r.key = k)) = !(rowsFor T k).isEmpty := by
  unfold rowsFor
  induction T.rows with
  | nil => rfl
  | cons r rows ih =>
    by_cases hr : (r.key = k)
    · simp [List.any_cons, List.filter_cons, hr]
    · simp [List.any_cons, List.filter_cons, hr, ih]

/-- `__test_supports_jsonization` probing a created table: answers whether
the `jsonized` column exists and memoizes it. -/
theorem test_supports_probe (nm : String) (db1 : DBState) (tr1 : List Cmd)
    (T1 : DBTable) (hl1 : lookupTable db1 (physTable nm) = some T1) :
    IndexedDB.test_supports_jsonization
        ⟨⟨quotedTable nm, true, none⟩, db1, tr1⟩
      = (.ok T1.hasJsonized, ⟨⟨quotedTable nm, true, some T1.hasJsonized⟩, db1,
          tr1 ++ [Cmd.exec (Query.tableInfo (quotedTable nm))]⟩) := by
  unfold IndexedDB.test_supports_jsonization
  dsimp only
  rw [show IndexedDB.create_table ⟨⟨quotedTable nm, true, none⟩, db1, tr1⟩
        = (.ok (), ⟨⟨quotedTable nm, true, none⟩, db1, tr1⟩) from rfl]
  dsimp only
  unfold dbExecute
  dsimp only
  rw [runQuery_tableInfo_present nm db1 T1 hl1]
  dsimp only
  rw [tableInfoRows_probe]
  cases hjz : T1.hasJsonized
  · rw [if_neg (by simp)]
  · rw [if_pos rfl]

/-- `__support_jsonization` with the memo already true: no work. -/
theorem support_memo_true (nm : String) (fl : Bool) (db1 : DBState)
    (tr1 : List Cmd) :
    IndexedDB.support_jsonization ⟨⟨quotedTable nm, fl, some true⟩, db1, tr1⟩
      = (.ok (), ⟨⟨quotedTable nm, fl, some true⟩, db1, tr1⟩) := by
  unfold IndexedDB.support_jsonization
  rw [if_pos rfl]

/-- `__support_jsonization` probing a table that already has the column. -/
theorem support_probe_has (nm : String) (db1 : DBState) (tr1 : List Cmd)
    (T1 : DBTable) (hl1 : lookupTable db1 (physTable nm) = some T1)
    (hj : T1.hasJsonized = true) :
    IndexedDB.support_jsonization ⟨⟨quotedTable nm, true, none⟩, db1, tr1⟩
      = (.ok (), ⟨⟨quotedTable nm, true, some true⟩, db1,
          tr1 ++ [Cmd.exec (Query.tableInfo (quotedTable nm))]⟩) := by
  unfold IndexedDB.support_jsonization
  rw [if_neg (by simp)]
  rw [test_supports_probe nm db1 tr1 T1 hl1, hj]

/-- `__support_jsonization` probing a table without the column: the
ALTER-TABLE migration runs. -/
theorem support_probe_alter (nm : String) (db1 : DBState) (tr1 : List Cmd)
    (T1 : DBTable) (hl1 : lookupTable db1 (physTable nm) = some T1)
    (hj : T1.hasJsonized = false) :
    IndexedDB.support_jsonization ⟨⟨quotedTable nm, true, none⟩, db1, tr1⟩
      = (.ok (), ⟨⟨quotedTable nm, true, some true⟩,
          setTable db1 (physTable nm) ⟨true, T1.rows⟩,
          tr1 ++ [Cmd.exec (Query.tableInfo (quotedTable nm)),
                  Cmd.exec (Query.alterAddJsonized (quotedTable nm))]⟩) := by
  unfold IndexedDB.support_jsonization
  rw [if_neg (by simp)]
  rw [test_supports_probe nm db1 tr1 T1 hl1, hj]
  dsimp only
  unfold dbExecute
  dsimp only
  rw [runQuery_alter nm db1 T1 hl1 hj]
  dsimp only
  rw [List.append_assoc]
  rfl

/-- `__support_jsonization` with the memo false (the probe already found
no column): the memoized test short-circuits and the migration runs. -/
theorem support_memo_false (nm : String) (fl : Bool) (db1 : DBState)
    (tr1 : List Cmd) (T1 : DBTable)
    (hl1 : lookupTable db1 (physTable nm) = some T1)
    (hj : T1.hasJsonized = false) :
    IndexedDB.support_jsonization ⟨⟨quotedTable nm, fl, some false⟩, db1, tr1⟩
      = (.ok (), ⟨⟨quotedTable nm, fl, some true⟩,
          setTable db1 (physTable nm) ⟨true, T1.rows⟩,
          tr1 ++ [Cmd.exec (Query.alterAddJsonized (quotedTable nm))]⟩) := by
  unfold IndexedDB.support_jsonization
  rw [if_neg (by simp)]
  rw [show IndexedDB.test_supports_jsonization
        ⟨⟨quotedTable nm, fl, some false⟩, db1, tr1⟩
      = (.ok false, ⟨⟨quotedTable nm, fl, some false⟩, db1, tr1⟩) from rfl]
  dsimp only
  unfold dbExecute
  dsimp only
  rw [runQuery_alter nm db1 T1 hl1 hj]

/-- `key_exists` on a created table: reports whether rows with the key
exist; only the trace changes. -/
theorem key_exists_spec (nm k : String) (mm : Option Bool) (db1 : DBState)
    (tr1 : List Cmd) (T1 : DBTable)
    (hl1 : lookupTable db1 (physTable nm) = some T1) :
    IndexedDB.key_exists k ⟨⟨quotedTable nm, true, mm⟩, db1, tr1⟩
      = (.ok (!(rowsFor T1 k).isEmpty), ⟨⟨quotedTable nm, true, mm⟩, db1,
          tr1 ++ [Cmd.exec (Query.selectValue (quotedTable nm) k false)]⟩) := by
  unfold IndexedDB.key_exists
  rw [show IndexedDB.create_table ⟨⟨quotedTable nm, true, mm⟩, db1, tr1⟩
        = (.ok (), ⟨⟨quotedTable nm, true, mm⟩, db1, tr1⟩) from rfl]
  dsimp only
  unfold dbExecute
  dsimp only
  rw [runQuery_select_noJson nm k db1 T1 hl1]
  dsimp only
  rw [show (((rowsFor T1 k).map (fun r => [Val.vs r.value])).isEmpty)
        = (rowsFor T1 k).isEmpty from by cases rowsFor T1 k <;> rfl]

/-- `__getitem__` on a created table holding the key, for a row whose tag
is 0 whenever the tag column exists (and a memo consistent with the
schema): returns the stored text unchanged. -/
theorem getitem_hit_raw (nm k : String) (mm1 : Option Bool) (db1 : DBState)
    (tr1 : List Cmd) (T1 : DBTable) (r0 : DBRow) (rest : List DBRow)
    (hl1 : lookupTable db1 (physTable nm) = some T1)
    (hrows : rowsFor T1 k = r0 :: rest)
    (hmm : mm1 = none ∨ mm1 = some T1.hasJsonized)
    (htag : T1.hasJsonized = true → r0.jsonized = 0) :
    (IndexedDB.getitem k ⟨⟨quotedTable nm, true, mm1⟩, db1, tr1⟩).1
      = .ok (.pstr r0.value) := by
  unfold IndexedDB.getitem
  rcases hmm with hmm | hmm
  · subst hmm
    rw [show IndexedDB.create_table ⟨⟨quotedTable nm, true, none⟩, db1, tr1⟩
          = (.ok (), ⟨⟨quotedTable nm, true, none⟩, db1, tr1⟩) from rfl]
    dsimp only
    rw [test_supports_probe nm db1 tr1 T1 hl1]
    dsimp only
    cases hjz : T1.hasJsonized
    · unfold dbExecute
      dsimp only
      rw [runQuery_select_noJson nm k db1 T1 hl1, hrows, List.map_cons]
      dsimp only
      rw [if_neg (by simp)]
      rfl
    · unfold dbExecute
      dsimp only
      rw [runQuery_select_json nm k db1 T1 hl1 hjz, hrows, List.map_cons]
      dsimp only
      rw [if_pos rfl]
      rw [show ([Val.vs r0.value, Val.vi r0.jsonized].getD 1 Val.vnull).asInt
            = r0.jsonized from rfl]
      rw [htag hjz]
      rfl
  · subst hmm
    rw [show IndexedDB.create_table
          ⟨⟨quotedTable nm, true, some T1.hasJsonized⟩, db1, tr1⟩
        = (.ok (), ⟨⟨quotedTable nm, true, some T1.hasJsonized⟩, db1, tr1⟩)
        from rfl]
    dsimp only
    rw [show IndexedDB.test_supports_jsonization
          ⟨⟨quotedTable nm, true, some T1.hasJsonized⟩, db1, tr1⟩
        = (.ok T1.hasJsonized,
           ⟨⟨quotedTable nm, true, some T1.hasJsonized⟩, db1, tr1⟩) from by
      unfold IndexedDB.test_supports_jsonization
      rfl]
    dsimp only
    cases hjz : T1.hasJsonized
    · unfold dbExecute
      dsimp only
      rw [runQuery_select_noJson nm k db1 T1 hl1, hrows, List.map_cons]
      dsimp only
      rw [if_neg (by simp)]
      rfl
    · unfold dbExecute
      dsimp only
      rw [runQuery_select_json nm k db1 T1 hl1 hjz, hrows, List.map_cons]
      dsimp only
      rw [if_pos rfl]
      rw [show ([Val.vs r0.value, Val.vi r0.jsonized].getD 1 Val.vnull).asInt
            = r0.jsonized from rfl]
      rw [htag hjz]
      rfl

/-- `__getitem__` on a created, migrated table holding the key with tag 1:
returns the `json.loads` of the stored text. -/
theorem getitem_hit_json (nm k : String) (db1 : DBState) (tr1 : List Cmd)
    (T1 : DBTable) (r0 : DBRow) (rest : List DBRow) (w : PyVal)
    (hl1 : lookupTable db1 (physTable nm) = some T1)
    (hrows : rowsFor T1 k = r0 :: rest)
    (hj : T1.hasJsonized = true)
    (htag : r0.jsonized = 1)
    (hdec : json_loads_py r0.value = some w) :
    (IndexedDB.getitem k ⟨⟨quotedTable nm, true, some true⟩, db1, tr1⟩).1
      = .ok w := by
  unfold IndexedDB.getitem
  rw [show IndexedDB.create_table ⟨⟨quotedTable nm, true, some true⟩, db1, tr1⟩
        = (.ok (), ⟨⟨quotedTable nm, true, some true⟩, db1, tr1⟩) from rfl]
  dsimp only
  rw [show IndexedDB.test_supports_jsonization
        ⟨⟨quotedTable nm, true, some true⟩, db1, tr1⟩
      = (.ok true, ⟨⟨quotedTable nm, true, some true⟩, db1, tr1⟩) from rfl]
  dsimp only
  unfold dbExecute
  dsimp only
  rw [runQuery_select_json nm k db1 T1 hl1 hj, hrows, List.map_cons]
  dsimp only
  rw [if_pos rfl]
  rw [show ([Val.vs r0.value, Val.vi r0.jsonized].getD 1 Val.vnull).asInt
        = r0.jsonized from rfl]
  rw [htag]
  rw [if_pos rfl]
  rw [show ([Val.vs r0.value, Val.vi 1].getD 0 Val.vnull).asStr
        = r0.value from rfl]
  rw [hdec]

theorem find?_append_right_none {α : Type} (l1 l2 : List α) (p : α → Bool)
    (h : l1.find? p = none) : (l1 ++ l2).find? p = l2.find? p := by
  induction l1 with
  | nil => simp
  | cons a l ih =>
    by_cases ha : p a
    · rw [List.find?_cons_of_pos _ ha] at h
      simp at h
    · rw [List.find?_cons_of_neg _ ha] at h
      rw [List.cons_append, List.find?_cons_of_neg _ ha]
      exact ih h

theorem lookupTable_append_self (db : DBState) (t : String) (tbl : DBTable)
    (h : lookupTable db t = none) :
    lookupTable ⟨db.tables ++ [(t, tbl)]⟩ t = some tbl := by
  have hf : db.tables.find? (fun p => p.1 = t) = none := by
    unfold lookupTable at h
    cases hf : db.tables.find? (fun p => p.1 = t) with
    | none => rfl
    | some x => rw [hf] at h; simp at h
  unfold lookupTable
  rw [show (⟨db.tables ++ [(t, tbl)]⟩ : DBState).tables
        = db.tables ++ [(t, tbl)] from rfl,
      find?_append_right_none _ _ _ hf]
  simp

theorem rowsFor_singleton (hj : Bool) (k s : String) (j : Int) :
    rowsFor ⟨hj, [⟨k, s, j⟩]⟩ k = [⟨k, s, j⟩] := by
  simp [rowsFor]

/-- Full characterization of a successful string set on a consistent
handle: the call succeeds, the namespace table afterwards holds the key
with the given string as its first matching row, the memo stays
consistent with the schema, and whenever the tag column exists the
written row's tag is 0. -/
theorem setitem_str_master (nm k s : String) (fl : Bool) (mm : Option Bool)
    (db0 : DBState) (tr0 : List Cmd)
    (hflag : fl = true → ∃ T, lookupTable db0 (physTable nm) = some T)
    (hmemo : ∀ b, mm = some b →
      ∃ T, lookupTable db0 (physTable nm) = some T ∧ T.hasJsonized = b) :
    ∃ (db1 : DBState) (tr1 : List Cmd) (mm1 : Option Bool) (T1 : DBTable)
      (r0 : DBRow) (rest : List DBRow),
      IndexedDB.setitem k (.pstr s) ⟨⟨quotedTable nm, fl, mm⟩, db0, tr0⟩
        = (.ok (), ⟨⟨quotedTable nm, true, mm1⟩, db1, tr1⟩)
      ∧ lookupTable db1 (physTable nm) = some T1
      ∧ rowsFor T1 k = r0 :: rest
      ∧ r0.value = s
      ∧ (mm1 = none ∨ mm1 = some T1.hasJsonized)
      ∧ (T1.hasJsonized = true → r0.jsonized = 0) := by
  unfold IndexedDB.setitem IndexedDB.setitem_write
  cases hl : lookupTable db0 (physTable nm) with
  | none =>
    cases fl with
    | true =>
      obtain ⟨T, hT⟩ := hflag rfl
      rw [hT] at hl
      exact absurd hl (by simp)
    | false =>
      cases mm with
      | some b =>
        obtain ⟨T, hT, _⟩ := hmemo b rfl
        rw [hT] at hl
        exact absurd hl (by simp)
      | none =>
        rw [create_table_absent nm none db0 tr0 hl]
        dsimp only
        rw [show IndexedDB.setitem_triage (.pstr s)
              ⟨⟨quotedTable nm, true, none⟩,
                ⟨db0.tables ++ [(physTable nm, ⟨false, []⟩)]⟩,
                tr0 ++ [Cmd.exec (Query.createTable (quotedTable nm))]⟩
            = (.ok (s, 0),
               ⟨⟨quotedTable nm, true, none⟩,
                ⟨db0.tables ++ [(physTable nm, ⟨false, []⟩)]⟩,
                tr0 ++ [Cmd.exec (Query.createTable (quotedTable nm))]⟩)
            from rfl]
        dsimp only
        have hl1 : lookupTable ⟨db0.tables ++ [(physTable nm, ⟨false, []⟩)]⟩
            (physTable nm) = some ⟨false, []⟩ :=
          lookupTable_append_self db0 (physTable nm) ⟨false, []⟩ hl
        rw [key_exists_spec nm k none _ _ ⟨false, []⟩ hl1]
        rw [show (!(rowsFor ⟨false, []⟩ k).isEmpty) = false from rfl]
        dsimp only
        rw [if_neg (by simp)]
        unfold dbExecute
        dsimp only
        rw [runQuery_insert_noTag nm k s _ ⟨false, []⟩ hl1 rfl]
        dsimp only
        refine ⟨_, _, none, ⟨false, [⟨k, s, 0⟩]⟩, ⟨k, s, 0⟩, [],
          rfl, ?_, ?_, rfl, Or.inl rfl, fun h => by simp at h⟩
        · exact lookupTable_setTable_self _ _ ⟨false, []⟩ _ hl1
        · exact rowsFor_singleton false k s 0
  | some T =>
    obtain ⟨trA, hctA⟩ := create_table_present nm fl mm db0 tr0 T hl
    rw [hctA]
    dsimp only
    rw [show IndexedDB.setitem_triage (.pstr s)
          ⟨⟨quotedTable nm, true, mm⟩, db0, trA⟩
        = (.ok (s, 0), ⟨⟨quotedTable nm, true, mm⟩, db0, trA⟩) from rfl]
    dsimp only
    rw [key_exists_spec nm k mm db0 trA T hl]
    cases hex : rowsFor T k with
    | nil =>
      rw [show (!(([] : List DBRow).isEmpty)) = false from rfl]
      dsimp only
      have hnd : (T.rows.any (fun r => r.key = k)) = false := by
        rw [rowsFor_any, hex]
        rfl
      cases mm with
      | none =>
        rw [if_neg (by simp)]
        unfold dbExecute
        dsimp only
        rw [runQuery_insert_noTag nm k s db0 T hl hnd]
        dsimp only
        refine ⟨_, _, none, ⟨T.hasJsonized, T.rows ++ [⟨k, s, 0⟩]⟩,
          ⟨k, s, 0⟩, [], rfl, ?_, ?_, rfl, Or.inl rfl, fun _ => rfl⟩
        · exact lookupTable_setTable_self db0 _ T _ hl
        · rw [rowsFor_append_hit T.hasJsonized T.rows k s 0,
              show rowsFor ⟨T.hasJsonized, T.rows⟩ k = rowsFor T k from rfl,
              hex]
          rfl
      | some b =>
        obtain ⟨T', hT', hb⟩ := hmemo b rfl
        rw [hl] at hT'
        have hTb : T.hasJsonized = b := by
          cases Option.some.inj hT'
          exact hb
        cases b with
        | true =>
          rw [if_pos rfl]
          unfold dbExecute
          dsimp only
          rw [runQuery_insert_tag nm k s 0 db0 T hl hTb hnd]
          dsimp only
          refine ⟨_, _, some true, ⟨true, T.rows ++ [⟨k, s, 0⟩]⟩,
            ⟨k, s, 0⟩, [], rfl, ?_, ?_, rfl, Or.inr rfl, fun _ => rfl⟩
          · exact lookupTable_setTable_self db0 _ T _ hl
          · rw [show rowsFor ⟨true, T.rows ++ [⟨k, s, 0⟩]⟩ k
                  = rowsFor ⟨T.hasJsonized, T.rows ++ [⟨k, s, 0⟩]⟩ k from by
                rw [hTb],
                rowsFor_append_hit T.hasJsonized T.rows k s 0,
                show rowsFor ⟨T.hasJsonized, T.rows⟩ k = rowsFor T k from rfl,
                hex]
            rfl
        | false =>
          rw [if_neg (by simp)]
          unfold dbExecute
          dsimp only
          rw [runQuery_insert_noTag nm k s db0 T hl hnd]
          dsimp only
          refine ⟨_, _, some false, ⟨T.hasJsonized, T.rows ++ [⟨k, s, 0⟩]⟩,
            ⟨k, s, 0⟩, [], rfl, ?_, ?_, rfl,
            Or.inr (by rw [show (⟨T.hasJsonized, T.rows ++ [⟨k, s, 0⟩]⟩
              : DBTable).hasJsonized = T.hasJsonized from rfl, hTb]),
            fun _ => rfl⟩
          · exact lookupTable_setTable_self db0 _ T _ hl
          · rw [rowsFor_append_hit T.hasJsonized T.rows k s 0,
              show rowsFor ⟨T.hasJsonized, T.rows⟩ k = rowsFor T k from rfl,
              hex]
            rfl
    | cons r0x restx =>
      rw [show (!((r0x :: restx).isEmpty)) = true from rfl]
      dsimp only
      have hk0 : r0x.key = k := rowsFor_head_key T k r0x restx hex
      cases mm with
      | none =>
        rw [test_supports_probe nm db0 _ T hl]
        dsimp only
        cases hjz : T.hasJsonized with
        | true =>
          rw [if_pos rfl]
          unfold dbExecute
          dsimp only
          rw [runQuery_update_tag nm k s 0 db0 T hl hjz]
          dsimp only
          refine ⟨_, _, some true,
            ⟨true, T.rows.map (fun r =>
              if r.key = k then ⟨r.key, s, 0⟩ else r)⟩,
            ⟨k, s, 0⟩, restx.map (fun r =>
              if r.key = k then ⟨r.key, s, 0⟩ else r),
            rfl, ?_, ?_, rfl, Or.inr rfl, fun _ => rfl⟩
          · exact lookupTable_setTable_self db0 _ T _ hl
          · rw [show rowsFor ⟨true, T.rows.map (fun r =>
                  if r.key = k then (⟨r.key, s, 0⟩ : DBRow) else r)⟩ k
                = (rowsFor T k).map (fun r =>
                  if r.key = k then (⟨r.key, s, 0⟩ : DBRow) else r) from
                rowsFor_map_update T true k s 0,
              hex, List.map_cons]
            simp [hk0]
        | false =>
          rw [if_neg (by simp)]
          unfold dbExecute
          dsimp only
          rw [runQuery_update_noTag nm k s db0 T hl]
          dsimp only
          refine ⟨_, _, some false,
            ⟨T.hasJsonized, T.rows.map (fun r =>
              if r.key = k then ⟨r.key, s, r.jsonized⟩ else r)⟩,
            ⟨k, s, r0x.jsonized⟩, restx.map (fun r =>
              if r.key = k then ⟨r.key, s, r.jsonized⟩ else r),
            rfl, ?_, ?_, rfl,
            Or.inr (by rw [show (⟨T.hasJsonized, T.rows.map _⟩
              : DBTable).hasJsonized = T.hasJsonized from rfl, hjz]),
            ?_⟩
          · exact lookupTable_setTable_self db0 _ T _ hl
          · rw [show rowsFor ⟨T.hasJsonized, T.rows.map (fun r =>
                  if r.key = k then (⟨r.key, s, r.jsonized⟩ : DBRow) else r)⟩ k
                = (rowsFor T k).map (fun r =>
                  if r.key = k then (⟨r.key, s, r.jsonized⟩ : DBRow) else r)
                from rowsFor_map_update_noTag T T.hasJsonized k s,
              hex, List.map_cons]
            simp [hk0]
          · intro h
            rw [show (⟨T.hasJsonized, T.rows.map _⟩ : DBTable).hasJsonized
                  = T.hasJsonized from rfl, hjz] at h
            simp at h
      | some b =>
        obtain ⟨T', hT', hb⟩ := hmemo b rfl
        rw [hl] at hT'
        have hTb : T.hasJsonized = b := by
          cases Option.some.inj hT'
          exact hb
        cases b with
        | true =>
          rw [show IndexedDB.test_supports_jsonization
                ⟨⟨quotedTable nm, true, some true⟩, db0,
                  trA ++ [Cmd.exec (Query.selectValue (quotedTable nm) k false)]⟩
              = (.ok true, ⟨⟨quotedTable nm, true, some true⟩, db0,
                  trA ++ [Cmd.exec (Query.selectValue (quotedTable nm) k false)]⟩)
              from rfl]
          dsimp only
          rw [if_pos rfl]
          unfold dbExecute
          dsimp only
          rw [runQuery_update_tag nm k s 0 db0 T hl hTb]
          dsimp only
          refine ⟨_, _, some true,
            ⟨true, T.rows.map (fun r =>
              if r.key = k then ⟨r.key, s, 0⟩ else r)⟩,
            ⟨k, s, 0⟩, restx.map (fun r =>
              if r.key = k then ⟨r.key, s, 0⟩ else r),
            rfl, ?_, ?_, rfl, Or.inr rfl, fun _ => rfl⟩
          · exact lookupTable_setTable_self db0 _ T _ hl
          · rw [show rowsFor ⟨true, T.rows.map (fun r =>
                  if r.key = k then (⟨r.key, s, 0⟩ : DBRow) else r)⟩ k
                = (rowsFor T k).map (fun r =>
                  if r.key = k then (⟨r.key, s, 0⟩ : DBRow) else r) from
                rowsFor_map_update T true k s 0,
              hex, List.map_cons]
            simp [hk0]
        | false =>
          rw [show IndexedDB.test_supports_jsonization
                ⟨⟨quotedTable nm, true, some false⟩, db0,
                  trA ++ [Cmd.exec (Query.selectValue (quotedTable nm) k false)]⟩
              = (.ok false, ⟨⟨quotedTable nm, true, some false⟩, db0,
                  trA ++ [Cmd.exec (Query.selectValue (quotedTable nm) k false)]⟩)
              from rfl]
          dsimp only
          rw [if_neg (by simp)]
          unfold dbExecute
          dsimp only
          rw [runQuery_update_noTag nm k s db0 T hl]
          dsimp only
          refine ⟨_, _, some false,
            ⟨T.hasJsonized, T.rows.map (fun r =>
              if r.key = k then ⟨r.key, s, r.jsonized⟩ else r)⟩,
            ⟨k, s, r0x.jsonized⟩, restx.map (fun r =>
              if r.key = k then ⟨r.key, s, r.jsonized⟩ else r),
            rfl, ?_, ?_, rfl,
            Or.inr (by rw [show (⟨T.hasJsonized, T.rows.map _⟩
              : DBTable).hasJsonized = T.hasJsonized from rfl, hTb]),
            ?_⟩
          · exact lookupTable_setTable_self db0 _ T _ hl
          · rw [show rowsFor ⟨T.hasJsonized, T.rows.map (fun r =>
                  if r.key = k then (⟨r.key, s, r.jsonized⟩ : DBRow) else r)⟩ k
                = (rowsFor T k).map (fun r =>
                  if r.key = k then (⟨r.key, s, r.jsonized⟩ : DBRow) else r)
                from rowsFor_map_update_noTag T T.hasJsonized k s,
              hex, List.map_cons]
            simp [hk0]
          · intro h
            rw [show (⟨T.hasJsonized, T.rows.map _⟩ : DBTable).hasJsonized
                  = T.hasJsonized from rfl, hTb] at h
            simp at h

/-- Claim C1: for every key `k` and every plain-string value `s`,
`store[k] = s` followed by `store[k]` returns exactly the string `s`;
the value is stored as-is in the row for `k`, and whenever the table
carries the tag column the stored tag is 0.  Stated for any handle
consistent with the database: the created-flag and the jsonization memo
only promise what the database actually holds. -/
theorem set_then_get_string (nm k s : String) (fl : Bool) (mm : Option Bool)
    (db0 : DBState) (tr0 : List Cmd)
    (hflag : fl = true → ∃ T, lookupTable db0 (physTable nm) = some T)
    (hmemo : ∀ b, mm = some b →
      ∃ T, lookupTable db0 (physTable nm) = some T ∧ T.hasJsonized = b) :
    (IndexedDB.setitem k (.pstr s) ⟨⟨quotedTable nm, fl, mm⟩, db0, tr0⟩).1
      = .ok ()
    ∧ (IndexedDB.getitem k
        (IndexedDB.setitem k (.pstr s)
          ⟨⟨quotedTable nm, fl, mm⟩, db0, tr0⟩).2).1
      = .ok (.pstr s)
    ∧ ∃ (T1 : DBTable) (r0 : DBRow) (rest : List DBRow),
        lookupTable (IndexedDB.setitem k (.pstr s)
            ⟨⟨quotedTable nm, fl, mm⟩, db0, tr0⟩).2.db (physTable nm)
          = some T1
        ∧ rowsFor T1 k = r0 :: rest
        ∧ r0.value = s
        ∧ (T1.hasJsonized = true → r0.jsonized = 0) := by
  obtain ⟨db1, tr1, mm1, T1, r0, rest, heq, hl1, hrows, hval, hmm, htag⟩ :=
    setitem_str_master nm k s fl mm db0 tr0 hflag hmemo
  rw [heq]
  have h2 := getitem_hit_raw nm k mm1 db1 tr1 T1 r0 rest hl1 hrows hmm htag
  rw [hval] at h2
  exact ⟨rfl, h2, T1, r0, rest, hl1, hrows, hval, htag⟩

/-- Concrete instance of the string round trip: a fresh store over an
empty database, key "k", value "v". -/
theorem set_then_get_string_witness :
    (false = true → ∃ T, lookupTable emptyDB (physTable "ns") = some T)
    ∧ (IndexedDB.getitem "k" (IndexedDB.setitem "k" (.pstr "v")
          ⟨⟨quotedTable "ns", false, none⟩, emptyDB, []⟩).2).1
        = .ok (.pstr "v") :=
  ⟨fun h => absurd h (by decide),
   (set_then_get_string "ns" "k" "v" false none emptyDB []
      (fun h => absurd h (by decide))
      (fun b hb => absurd hb (by simp))).2.1⟩

/-- The triage of `__setitem__` for a non-string value whose `json.dumps`
succeeds: `__support_jsonization` runs first and the triage yields the
encoded text with tag 1. -/
theorem setitem_triage_nonstr (v : PyVal) (txt : String) (st st2 : IState)
    (hv : ∀ t, v ≠ PyVal.pstr t)
    (hjs : json_dumps_py v = some txt)
    (hsup : IndexedDB.support_jsonization st = (.ok (), st2)) :
    IndexedDB.setitem_triage v st = (.ok (txt, (1 : Int)), st2) := by
  cases v
  case pstr t => exact absurd rfl (hv t)
  all_goals
    unfold IndexedDB.setitem_triage
    dsimp only
    rw [hsup]
    dsimp only
    rw [hjs]

/-- The write phase of `__setitem__` on a migrated table (the `jsonized`
column present, the memo set to true): the key ends up holding the
triaged text and tag as the first matching row - UPDATE when the key
already exists, INSERT otherwise - and the call commits and succeeds. -/
theorem setitem_write_tagged (nm k txt : String) (tg : Int)
    (db2 : DBState) (tr2 : List Cmd) (R : List DBRow)
    (hl2 : lookupTable db2 (physTable nm) = some ⟨true, R⟩) :
    ∃ (db1 : DBState) (tr1 : List Cmd) (T1 : DBTable) (rest : List DBRow),
      IndexedDB.setitem_write k txt tg
          ⟨⟨quotedTable nm, true, some true⟩, db2, tr2⟩
        = (.ok (), ⟨⟨quotedTable nm, true, some true⟩, db1, tr1⟩)
      ∧ lookupTable db1 (physTable nm) = some T1
      ∧ T1.hasJsonized = true
      ∧ rowsFor T1 k = ⟨k, txt, tg⟩ :: rest := by
  unfold IndexedDB.setitem_write
  rw [key_exists_spec nm k (some true) db2 tr2 ⟨true, R⟩ hl2]
  dsimp only
  cases hex : rowsFor ⟨true, R⟩ k with
  | nil =>
    rw [show (!(([] : List DBRow).isEmpty)) = false from rfl]
    dsimp only
    rw [if_pos rfl]
    unfold dbExecute
    dsimp only
    rw [runQuery_insert_tag nm k txt tg db2 ⟨true, R⟩ hl2 rfl
      (by rw [rowsFor_any ⟨true, R⟩ k, hex]; rfl)]
    dsimp only
    refine ⟨_, _, ⟨true, R ++ [⟨k, txt, tg⟩]⟩, [], rfl, ?_, rfl, ?_⟩
    · exact lookupTable_setTable_self db2 _ ⟨true, R⟩ _ hl2
    · rw [show rowsFor ⟨true, R ++ [⟨k, txt, tg⟩]⟩ k
            = rowsFor ⟨true, R⟩ k ++ [⟨k, txt, tg⟩]
          from rowsFor_append_hit true R k txt tg, hex]
      rfl
  | cons r0x restx =>
    rw [show (!((r0x :: restx).isEmpty)) = true from rfl]
    dsimp only
    rw [show IndexedDB.test_supports_jsonization
          ⟨⟨quotedTable nm, true, some true⟩, db2,
            tr2 ++ [Cmd.exec (Query.selectValue (quotedTable nm) k false)]⟩
        = (.ok true, ⟨⟨quotedTable nm, true, some true⟩, db2,
            tr2 ++ [Cmd.exec (Query.selectValue (quotedTable nm) k false)]⟩)
        from rfl]
    dsimp only
    rw [if_pos rfl]
    unfold dbExecute
    dsimp only
    rw [runQuery_update_tag nm k txt tg db2 ⟨true, R⟩ hl2 rfl]
    dsimp only
    have hk0 : r0x.key = k := rowsFor_head_key ⟨true, R⟩ k r0x restx hex
    refine ⟨_, _,
      ⟨true, R.map (fun r => if r.key = k then ⟨r.key, txt, tg⟩ else r)⟩,
      restx.map (fun r => if r.key = k then (⟨r.key, txt, tg⟩ : DBRow) else r),
      rfl, ?_, rfl, ?_⟩
    · exact lookupTable_setTable_self db2 _ ⟨true, R⟩ _ hl2
    · rw [show rowsFor ⟨true, R.map (fun r =>
            if r.key = k then (⟨r.key, txt, tg⟩ : DBRow) else r)⟩ k
          = (rowsFor ⟨true, R⟩ k).map (fun r =>
            if r.key = k then (⟨r.key, txt, tg⟩ : DBRow) else r)
          from rowsFor_map_update ⟨true, R⟩ true k txt tg, hex, List.map_cons]
      simp [hk0]

/-- Full characterization of a successful non-string set whose value
JSON-encodes, on a consistent handle: the call succeeds, the table is
migrated (the `jsonized` column present, the memo true), and the key's
first matching row holds the encoded text with tag 1. -/
theorem setitem_nonstr_master (nm k : String) (v : PyVal) (txt : String)
    (fl : Bool) (mm : Option Bool) (db0 : DBState) (tr0 : List Cmd)
    (hv : ∀ t, v ≠ PyVal.pstr t)
    (hjs : json_dumps_py v = some txt)
    (hflag : fl = true → ∃ T, lookupTable db0 (physTable nm) = some T)
    (hmemo : ∀ b, mm = some b →
      ∃ T, lookupTable db0 (physTable nm) = some T ∧ T.hasJsonized = b) :
    ∃ (db1 : DBState) (tr1 : List Cmd) (T1 : DBTable) (rest : List DBRow),
      IndexedDB.setitem k v ⟨⟨quotedTable nm, fl, mm⟩, db0, tr0⟩
        = (.ok (), ⟨⟨quotedTable nm, true, some true⟩, db1, tr1⟩)
      ∧ lookupTable db1 (physTable nm) = some T1
      ∧ T1.hasJsonized = true
      ∧ rowsFor T1 k = ⟨k, txt, (1 : Int)⟩ :: rest := by
  unfold IndexedDB.setitem
  cases hl : lookupTable db0 (physTable nm) with
  | none =>
    cases fl with
    | true =>
      obtain ⟨T, hT⟩ := hflag rfl
      rw [hT] at hl
      exact absurd hl (by simp)
    | false =>
      cases mm with
      | some b =>
        obtain ⟨T, hT, _⟩ := hmemo b rfl
        rw [hT] at hl
        exact absurd hl (by simp)
      | none =>
        rw [create_table_absent nm none db0 tr0 hl]
        dsimp only
        have hl1 : lookupTable ⟨db0.tables ++ [(physTable nm, ⟨false, []⟩)]⟩
            (physTable nm) = some ⟨false, []⟩ :=
          lookupTable_append_self db0 (physTable nm) ⟨false, []⟩ hl
        rw [setitem_triage_nonstr v txt _ _ hv hjs
          (support_probe_alter nm _ _ ⟨false, []⟩ hl1 rfl)]
        dsimp only
        have hl2 : lookupTable
            (setTable ⟨db0.tables ++ [(physTable nm, ⟨false, []⟩)]⟩
              (physTable nm) ⟨true, []⟩) (physTable nm) = some ⟨true, []⟩ :=
          lookupTable_setTable_self _ _ ⟨false, []⟩ _ hl1
        obtain ⟨db1, tr1, T1, rest, heq, hT1, hj1, hr1⟩ :=
          setitem_write_tagged nm k txt 1 _ _ [] hl2
        rw [heq]
        exact ⟨db1, tr1, T1, rest, rfl, hT1, hj1, hr1⟩
  | some T =>
    rcases T with ⟨hjT, R⟩
    obtain ⟨trA, hctA⟩ := create_table_present nm fl mm db0 tr0 ⟨hjT, R⟩ hl
    rw [hctA]
    dsimp only
    cases hjT with
    | true =>
      cases mm with
      | none =>
        rw [setitem_triage_nonstr v txt _ _ hv hjs
          (support_probe_has nm db0 trA ⟨true, R⟩ hl rfl)]
        dsimp only
        obtain ⟨db1, tr1, T1, rest, heq, hT1, hj1, hr1⟩ :=
          setitem_write_tagged nm k txt 1 db0 _ R hl
        rw [heq]
        exact ⟨db1, tr1, T1, rest, rfl, hT1, hj1, hr1⟩
      | some b =>
        obtain ⟨T', hT', hjb⟩ := hmemo b rfl
        rw [hl] at hT'
        injection hT' with hTe
        rw [← hTe] at hjb
        rw [show (⟨true, R⟩ : DBTable).hasJsonized = true from rfl] at hjb
        cases b with
        | false => exact absurd hjb (by decide)
        | true =>
          rw [setitem_triage_nonstr v txt _ _ hv hjs
            (support_memo_true nm true db0 trA)]
          dsimp only
          obtain ⟨db1, tr1, T1, rest, heq, hT1, hj1, hr1⟩ :=
            setitem_write_tagged nm k txt 1 db0 trA R hl
          rw [heq]
          exact ⟨db1, tr1, T1, rest, rfl, hT1, hj1, hr1⟩
    | false =>
      cases mm with
      | none =>
        rw [setitem_triage_nonstr v txt _ _ hv hjs
          (support_probe_alter nm db0 trA ⟨false, R⟩ hl rfl)]
        dsimp only
        have hl2 : lookupTable (setTable db0 (physTable nm) ⟨true, R⟩)
            (physTable nm) = some ⟨true, R⟩ :=
          lookupTable_setTable_self db0 _ ⟨false, R⟩ _ hl
        obtain ⟨db1, tr1, T1, rest, heq, hT1, hj1, hr1⟩ :=
          setitem_write_tagged nm k txt 1 _ _ R hl2
        rw [heq]
        exact ⟨db1, tr1, T1, rest, rfl, hT1, hj1, hr1⟩
      | some b =>
        obtain ⟨T', hT', hjb⟩ := hmemo b rfl
        rw [hl] at hT'
        injection hT' with hTe
        rw [← hTe] at hjb
        rw [show (⟨false, R⟩ : DBTable).hasJsonized = false from rfl] at hjb
        cases b with
        | true => exact absurd hjb (by decide)
        | false =>
          rw [setitem_triage_nonstr v txt _ _ hv hjs
            (support_memo_false nm true db0 trA ⟨false, R⟩ hl rfl)]
          dsimp only
          have hl2 : lookupTable (setTable db0 (physTable nm) ⟨true, R⟩)
              (physTable nm) = some ⟨true, R⟩ :=
            lookupTable_setTable_self db0 _ ⟨false, R⟩ _ hl
          obtain ⟨db1, tr1, T1, rest, heq, hT1, hj1, hr1⟩ :=
            setitem_write_tagged nm k txt 1 _ _ R hl2
          rw [heq]
          exact ⟨db1, tr1, T1, rest, rfl, hT1, hj1, hr1⟩

/-- After a successful `json.dumps`, `json.loads` of the produced text is
exactly the canonical JSON image of the original value. -/
theorem json_roundtrip_py (v : PyVal) (txt : String)
    (h : json_dumps_py v = some txt) : json_loads_py txt = some (pyCanon v) := by
  unfold json_dumps_py at h
  cases hj : pyToJson v with
  | none => rw [hj] at h; simp at h
  | some j =>
    rw [hj, Option.map_some'] at h
    injection h with h
    subst h
    unfold json_loads_py
    rw [json_loads_jvalToText j, Option.map_some',
      jvalToPy_pyToJson v j hj]

/-- Claim C2: for every key `k` and every non-string, JSON-representable
value `v` (its `json.dumps` succeeds), `store[k] = v` followed by
`store[k]` returns a value structurally equal to `v`: the value is
stored as JSON text with tag 1 and decoded on read.  Stated for any
handle consistent with the database. -/
theorem set_then_get_structural (nm k : String) (v : PyVal) (txt : String)
    (fl : Bool) (mm : Option Bool) (db0 : DBState) (tr0 : List Cmd)
    (hv : ∀ t, v ≠ PyVal.pstr t)
    (hjs : json_dumps_py v = some txt)
    (hflag : fl = true → ∃ T, lookupTable db0 (physTable nm) = some T)
    (hmemo : ∀ b, mm = some b →
      ∃ T, lookupTable db0 (physTable nm) = some T ∧ T.hasJsonized = b) :
    (IndexedDB.setitem k v ⟨⟨quotedTable nm, fl, mm⟩, db0, tr0⟩).1 = .ok ()
    ∧ ∃ w, (IndexedDB.getitem k
          (IndexedDB.setitem k v ⟨⟨quotedTable nm, fl, mm⟩, db0, tr0⟩).2).1
        = .ok w
      ∧ structurallyEqual w v := by
  obtain ⟨db1, tr1, T1, rest, heq, hT1, hj1, hr1⟩ :=
    setitem_nonstr_master nm k v txt fl mm db0 tr0 hv hjs hflag hmemo
  rw [heq]
  refine ⟨rfl, pyCanon v, ?_, ?_⟩
  · exact getitem_hit_json nm k db1 tr1 T1 ⟨k, txt, 1⟩ rest (pyCanon v)
      hT1 hr1 hj1 rfl (json_roundtrip_py v txt hjs)
  · unfold structurallyEqual
    exact pyCanon_idem v

/-- Concrete instance of the structural round trip: the dict
\x7b"a": 1, "b": [1, 2, 3]\x7d on a fresh store over an empty database. -/
theorem set_then_get_structural_witness :
    (∀ t, PyVal.pdict [(.ks "a", .pint 1),
        (.ks "b", .plist [.pint 1, .pint 2, .pint 3])] ≠ PyVal.pstr t)
    ∧ ∃ w, (IndexedDB.getitem "k" (IndexedDB.setitem "k"
          (.pdict [(.ks "a", .pint 1),
            (.ks "b", .plist [.pint 1, .pint 2, .pint 3])])
          ⟨⟨quotedTable "ns", false, none⟩, emptyDB, []⟩).2).1
        = .ok w
      ∧ structurallyEqual w (.pdict [(.ks "a", .pint 1),
          (.ks "b", .plist [.pint 1, .pint 2, .pint 3])]) :=
  ⟨fun _ h => PyVal.noConfusion h,
   (set_then_get_structural "ns" "k"
      (.pdict [(.ks "a", .pint 1),
        (.ks "b", .plist [.pint 1, .pint 2, .pint 3])]) _ false none emptyDB []
      (fun _ h => PyVal.noConfusion h) rfl
      (fun h => absurd h (by decide))
      (fun b hb => absurd hb (by simp))).2⟩

/-- Claim C10: for every non-string value `v` accepted by the JSON
encoding, reading back after set returns exactly
`json.loads(json.dumps(v))`; the result is in canonical JSON form, so in
particular a stored tuple is returned as a list and map keys come back
as strings.  Stated for any handle consistent with the database. -/
theorem set_then_get_is_json_reencode (nm k : String) (v : PyVal)
    (txt : String) (fl : Bool) (mm : Option Bool)
    (db0 : DBState) (tr0 : List Cmd)
    (hv : ∀ t, v ≠ PyVal.pstr t)
    (hjs : json_dumps_py v = some txt)
    (hflag : fl = true → ∃ T, lookupTable db0 (physTable nm) = some T)
    (hmemo : ∀ b, mm = some b →
      ∃ T, lookupTable db0 (physTable nm) = some T ∧ T.hasJsonized = b) :
    ∃ w, (IndexedDB.getitem k
          (IndexedDB.setitem k v ⟨⟨quotedTable nm, fl, mm⟩, db0, tr0⟩).2).1
        = .ok w
      ∧ (json_dumps_py v).bind json_loads_py = some w
      ∧ isCanonicalForm w = true := by
  obtain ⟨db1, tr1, T1, rest, heq, hT1, hj1, hr1⟩ :=
    setitem_nonstr_master nm k v txt fl mm db0 tr0 hv hjs hflag hmemo
  rw [heq]
  obtain ⟨j, hj⟩ : ∃ j, pyToJson v = some j := by
    unfold json_dumps_py at hjs
    cases hpj : pyToJson v with
    | none => rw [hpj] at hjs; simp at hjs
    | some j => exact ⟨j, rfl⟩
  refine ⟨pyCanon v, ?_, ?_, ?_⟩
  · exact getitem_hit_json nm k db1 tr1 T1 ⟨k, txt, 1⟩ rest (pyCanon v)
      hT1 hr1 hj1 rfl (json_roundtrip_py v txt hjs)
  · rw [hjs, Option.some_bind, json_roundtrip_py v txt hjs]
  · rw [← jvalToPy_pyToJson v j hj]
    exact isCanonicalForm_jvalToPy j

/-- Concrete instance of the re-encode law: the tuple (1, "x") on a
fresh store comes back as the list [1, "x"]. -/
theorem set_then_get_is_json_reencode_witness :
    (∀ t, PyVal.ptuple [.pint 1, .pstr "x"] ≠ PyVal.pstr t)
    ∧ ∃ w, (IndexedDB.getitem "k" (IndexedDB.setitem "k"
          (.ptuple [.pint 1, .pstr "x"])
          ⟨⟨quotedTable "ns", false, none⟩, emptyDB, []⟩).2).1
        = .ok w
      ∧ (json_dumps_py (.ptuple [.pint 1, .pstr "x"])).bind json_loads_py
          = some w
      ∧ isCanonicalForm w = true :=
  ⟨fun _ h => PyVal.noConfusion h,
   set_then_get_is_json_reencode "ns" "k" (.ptuple [.pint 1, .pstr "x"]) _
      false none emptyDB []
      (fun _ h => PyVal.noConfusion h) rfl
      (fun h => absurd h (by decide))
      (fun b hb => absurd hb (by simp))⟩
